import Mathlib

/-!
Verification development for the project-template generator in
`src/templates/generate_project.py` (the `ProjectGenerator` class and the
`FRAMEWORKS` registry).

Strings are modelled as `List Char` (`Str`), filesystem paths as lists of
path components (`FPath`), and the filesystem as an explicit record of the
directories and files that exist.  Python's `str.replace` is modelled by a
fuel-indexed left-to-right scan (`replaceF`); the fuel equals the length of
the scanned string, which is enough because every step of the scan consumes
at least one character whenever the pattern is nonempty.
-/

abbrev Str := List Char

abbrev FPath := List Str

/-- The two brace characters, written via escapes. -/
def lbrace : Char := '\x7b'

def rbrace : Char := '\x7d'

/-- `FrameworkConfig` from the source: one immutable record per framework. -/
structure FrameworkConfig where
  name : Str
  display_name : Str
  language : Str
  framework : Str
  package_manager : Str
  test_framework : Str
  coverage_tool : Str
  docker_image : Str
  language_version : Str
  description : Str
  deriving DecidableEq, Repr

/-- The `FRAMEWORKS` dict from the source, as an association list in the
dict's insertion order.  Fields are in declaration order of
`FrameworkConfig`. -/
def FRAMEWORKS : List (Str × FrameworkConfig) :=
  [("python-fastapi".data,
    ⟨"python-fastapi".data, "Python + FastAPI".data, "Python".data, "FastAPI".data,
     "Poetry".data, "pytest".data, "pytest-cov".data, "python:3.11-slim".data,
     "3.11.x".data, "Modern Python web API with FastAPI, Poetry, and pytest".data⟩),
   ("typescript-nodejs".data,
    ⟨"typescript-nodejs".data, "TypeScript + Node.js + Express".data, "TypeScript".data,
     "Express".data, "npm/yarn".data, "Jest".data, "Istanbul".data, "node:20-alpine".data,
     "5.3+".data, "TypeScript backend with Express, Jest, and ESLint".data⟩),
   ("python-behave".data,
    ⟨"python-behave".data, "Python + Behave (BDD)".data, "Python".data, "Behave".data,
     "Poetry".data, "Behave + pytest".data, "coverage.py".data, "python:3.11-slim".data,
     "3.11.x".data, "Behavior-driven development with Behave and Python".data⟩)]

/-- `framework in FRAMEWORKS` / `FRAMEWORKS[framework]`: dictionary lookup. -/
def frameworksLookup (key : Str) : Option FrameworkConfig :=
  (FRAMEWORKS.find? (fun kv => kv.1 == key)).map (fun kv => kv.2)

/-- The transient configuration assembled by `get_project_config`:
the chosen `FrameworkConfig` plus the five user-supplied strings. -/
structure ProjectConfig where
  framework_config : FrameworkConfig
  project_name : Str
  author : Str
  description : Str
  gitlab_url : Str
  coverage_threshold : Str
  deriving DecidableEq, Repr

/-- The two ambient values taken from `datetime.now()`:
`strftime("%Y-%m-%d")` and `str(year)`. -/
structure Clock where
  generation_date : Str
  year : Str
  deriving DecidableEq, Repr

/-- The `replacements` dict built by `replace_variables`, in the dict's
insertion order.  Literal braces in the token strings are written with
escapes. -/
def replacements (config : ProjectConfig) (now : Clock) : List (Str × Str) :=
  [("\x7b\x7bLANGUAGE\x7d\x7d".data, config.framework_config.language),
   ("\x7b\x7bLANGUAGE_VERSION\x7d\x7d".data, config.framework_config.language_version),
   ("\x7b\x7bFRAMEWORK\x7d\x7d".data, config.framework_config.framework),
   ("\x7b\x7bPACKAGE_MANAGER\x7d\x7d".data, config.framework_config.package_manager),
   ("\x7b\x7bTEST_FRAMEWORK\x7d\x7d".data, config.framework_config.test_framework),
   ("\x7b\x7bCOVERAGE_TOOL\x7d\x7d".data, config.framework_config.coverage_tool),
   ("\x7b\x7bDOCKER_IMAGE\x7d\x7d".data, config.framework_config.docker_image),
   ("\x7b\x7bPROJECT_NAME\x7d\x7d".data, config.project_name),
   ("\x7b\x7bPROJECT_DESCRIPTION\x7d\x7d".data, config.description),
   ("\x7b\x7bAUTHOR\x7d\x7d".data, config.author),
   ("\x7b\x7bGITLAB_URL\x7d\x7d".data, config.gitlab_url),
   ("\x7b\x7bCOVERAGE_THRESHOLD\x7d\x7d".data, config.coverage_threshold),
   ("\x7b\x7bGENERATION_DATE\x7d\x7d".data, now.generation_date),
   ("\x7b\x7bYEAR\x7d\x7d".data, now.year)]

/-- The fixed token set (keys of `replacements`, which do not depend on the
config or the clock). -/
def tokens : List Str :=
  ["\x7b\x7bLANGUAGE\x7d\x7d".data,
   "\x7b\x7bLANGUAGE_VERSION\x7d\x7d".data,
   "\x7b\x7bFRAMEWORK\x7d\x7d".data,
   "\x7b\x7bPACKAGE_MANAGER\x7d\x7d".data,
   "\x7b\x7bTEST_FRAMEWORK\x7d\x7d".data,
   "\x7b\x7bCOVERAGE_TOOL\x7d\x7d".data,
   "\x7b\x7bDOCKER_IMAGE\x7d\x7d".data,
   "\x7b\x7bPROJECT_NAME\x7d\x7d".data,
   "\x7b\x7bPROJECT_DESCRIPTION\x7d\x7d".data,
   "\x7b\x7bAUTHOR\x7d\x7d".data,
   "\x7b\x7bGITLAB_URL\x7d\x7d".data,
   "\x7b\x7bCOVERAGE_THRESHOLD\x7d\x7d".data,
   "\x7b\x7bGENERATION_DATE\x7d\x7d".data,
   "\x7b\x7bYEAR\x7d\x7d".data]

/-- The 14 substituted values, in the same order as `tokens`. -/
def tokenValues (config : ProjectConfig) (now : Clock) : List Str :=
  (replacements config now).map (fun pv => pv.2)

/-- Python `str.replace`, fuel-indexed: scan left to right, replace each
leftmost non-overlapping occurrence of `pat` by `rep`, continue after the
replaced occurrence.  For nonempty `pat` every step consumes at least one
character, so fuel `s.length` suffices.  (Python's behaviour for an empty
pattern, inserting `rep` between all characters, is not reproduced; all
patterns used by the program are nonempty tokens.) -/
def replaceF (pat rep : Str) : Nat → Str → Str
  | _, [] => []
  | 0, s => s
  | fuel + 1, c :: cs =>
    if pat.isPrefixOf (c :: cs) then
      rep ++ replaceF pat rep fuel (cs.drop (pat.length - 1))
    else
      c :: replaceF pat rep fuel cs

/-- `s.replace(pat, rep)` for a string `s`. -/
def pyReplace (s pat rep : Str) : Str := replaceF pat rep s.length s

/-- Apply a list of `(placeholder, value)` pairs by chained sequential
`str.replace`, each over the result of the previous, exactly as the
`for placeholder, value in replacements.items()` loop does. -/
def applyRepls (content : Str) (pairs : List (Str × Str)) : Str :=
  pairs.foldl (fun result pv => pyReplace result pv.1 pv.2) content

/-- `ProjectGenerator.replace_variables`. -/
def replace_variables (content : Str) (config : ProjectConfig) (now : Clock) : Str :=
  applyRepls content (replacements config now)

/-- Modelled from the spec: the "single pass over the original template
text" substitution the spec describes — scan the content once, left to
right; at each position try the tokens in registry order against the
original text and emit the corresponding value on a match; never rescan
emitted values.  Used as the comparison point for claims about
single-pass/independent substitution. -/
def independentSubstF (pairs : List (Str × Str)) : Nat → Str → Str
  | _, [] => []
  | 0, s => s
  | fuel + 1, c :: cs =>
    match pairs.find? (fun pv => pv.1.isPrefixOf (c :: cs)) with
    | some pv => pv.2 ++ independentSubstF pairs fuel (cs.drop (pv.1.length - 1))
    | none => c :: independentSubstF pairs fuel cs

/-- Modelled from the spec: independent one-pass substitution of the whole
replacement table over the original content. -/
def independentSubstitute (content : Str) (config : ProjectConfig) (now : Clock) : Str :=
  independentSubstF (replacements config now) content.length content

/-- Python whitespace characters stripped by `str.strip()` (ASCII model;
other Unicode whitespace is immaterial to the inputs in question). -/
def pyWhitespace (c : Char) : Bool :=
  c = ' ' || c = '\t' || c = '\n' || c = '\r' || c = '\x0b' || c = '\x0c'

/-- `str.strip()`. -/
def pyStrip (s : Str) : Str :=
  ((s.dropWhile pyWhitespace).reverse.dropWhile pyWhitespace).reverse

/-- ASCII model of `str.lower()` (the program only compares against "y"). -/
def pyLowerChar (c : Char) : Char :=
  if 'A' ≤ c ∧ c ≤ 'Z' then Char.ofNat (c.toNat + 32) else c

def pyLower (s : Str) : Str := s.map pyLowerChar

/-- `ProjectGenerator.get_user_input`: strip the entered line; an empty
result falls back to `default or ""` (the prompt text itself is
presentation only). -/
def get_user_input (entered : Str) (default : Option Str) : Str :=
  let value := pyStrip entered
  if value = [] then default.getD [] else value

/-- `int(choice)` on an already-stripped string: optional sign followed by
one or more decimal digits (Python's underscore separators and non-ASCII
digits are immaterial to the inputs in question). -/
def parseDigits : Str → Option Nat
  | [] => none
  | [c] => if '0' ≤ c ∧ c ≤ '9' then some (c.toNat - '0'.toNat) else none
  | c :: cs =>
    if '0' ≤ c ∧ c ≤ '9' then
      (parseDigits cs).map (fun n => (c.toNat - '0'.toNat) * 10 ^ cs.length + n)
    else none

def pyInt (s : Str) : Option Int :=
  match s with
  | '+' :: rest => (parseDigits rest).map (fun n => (n : Int))
  | '-' :: rest => (parseDigits rest).map (fun n => -(n : Int))
  | _ => (parseDigits s).map (fun n => (n : Int))

/-- One `input()` call against a scripted input stream: an exhausted stream
models `input()` raising `EOFError` (uncaught inside the generator, caught
by `main`'s `except Exception`, exit 1). -/
def promptInput (inputs : List Str) (default : Option Str) : Option (Str × List Str) :=
  match inputs with
  | [] => none
  | entered :: rest => some (get_user_input entered default, rest)

/-- `ProjectGenerator.select_framework`: repeatedly prompt (default "1")
until a 1-based index within range is entered; each iteration consumes one
input line; `none` models running out of input (`EOFError`). -/
def select_framework : List Str → Option (FrameworkConfig × List Str)
  | [] => none
  | entered :: rest =>
    let choice := get_user_input entered (some "1".data)
    match pyInt choice with
    | some n =>
      if 0 ≤ n - 1 ∧ n - 1 < (FRAMEWORKS.length : Int) then
        match FRAMEWORKS.get? (n - 1).toNat with
        | some kv => some (kv.2, rest)
        | none => select_framework rest
      else select_framework rest
    | none => select_framework rest

/-- Result of `get_project_config`: either a resolved configuration plus
the unconsumed input stream, or process exit with code 1 (`sys.exit(1)` on
an unknown framework, or an uncaught `EOFError` reaching `main`'s handler —
observably the same exit code). -/
inductive ConfigResult where
  | ok (config : ProjectConfig) (rest : List Str)
  | exit1
  deriving DecidableEq, Repr

/-- `ProjectGenerator.get_project_config`.  The source tests `if framework:`
and `if not project_name:` — Python truthiness, under which `None` and the
empty string are both falsy — so an absent *or empty* framework key selects
interactively and an absent or empty project name is prompted for. -/
def get_project_config (framework project_name : Option Str)
    (inputs : List Str) : ConfigResult :=
  match (match framework with
         | some key =>
           if key = [] then select_framework inputs
           else (frameworksLookup key).map (fun c => (c, inputs))
         | none => select_framework inputs) with
  | none => ConfigResult.exit1
  | some (config, inputs1) =>
    match (match project_name with
           | some n =>
             if n = [] then
               promptInput inputs1 (some ("my-".data ++ config.name ++ "-project".data))
             else some (n, inputs1)
           | none =>
             promptInput inputs1 (some ("my-".data ++ config.name ++ "-project".data))) with
    | none => ConfigResult.exit1
    | some (pname, inputs2) =>
      match promptInput inputs2 (some "Your Team".data) with
      | none => ConfigResult.exit1
      | some (author, inputs3) =>
        match promptInput inputs3 (some ("A ".data ++ config.display_name ++ " project".data)) with
        | none => ConfigResult.exit1
        | some (descr, inputs4) =>
          match promptInput inputs4 (some "".data) with
          | none => ConfigResult.exit1
          | some (gitlab, inputs5) =>
            match promptInput inputs5 (some "80".data) with
            | none => ConfigResult.exit1
            | some (cov, inputs6) =>
              ConfigResult.ok ⟨config, pname, author, descr, gitlab, cov⟩ inputs6

/-- The filesystem: the set of existing directories and the existing files
with their text contents (insertion-ordered lists with set semantics). -/
structure FS where
  dirs : List FPath
  files : List (FPath × Str)
  deriving DecidableEq, Repr

def FS.hasDir (fs : FS) (p : FPath) : Bool := fs.dirs.contains p

def FS.hasFile (fs : FS) (p : FPath) : Bool := fs.files.any (fun f => f.1 == p)

/-- Read a file's content. -/
def readFile (fs : FS) (p : FPath) : Option Str :=
  (fs.files.find? (fun f => f.1 == p)).map (fun f => f.2)

/-- Create a single directory, `exist_ok=True`. -/
def addDir (fs : FS) (p : FPath) : FS :=
  if fs.hasDir p then fs else ⟨fs.dirs ++ [p], fs.files⟩

/-- `Path.mkdir(parents=True, exist_ok=True)`: create every ancestor of
`p` (including `p` itself) that is missing. -/
def mkdirParents (fs : FS) (p : FPath) : FS :=
  p.inits.foldl addDir fs

/-- `open(p, "w").write(content)`: overwrite or create. -/
def writeFile (fs : FS) (p : FPath) (content : Str) : FS :=
  if fs.hasFile p then
    ⟨fs.dirs, fs.files.map (fun f => if f.1 == p then (p, content) else f)⟩
  else ⟨fs.dirs, fs.files ++ [(p, content)]⟩

/-- `Path.touch()`: create an empty file if missing (an existing file keeps
its content; only its mtime changes, which is not modelled). -/
def touchFile (fs : FS) (p : FPath) : FS :=
  if fs.hasFile p then fs else ⟨fs.dirs, fs.files ++ [(p, [])]⟩

/-- The template input tree consumed by the generator: the per-framework
subtrees under `frameworks/<key>/` — each a list of (relative path,
content) pairs for the regular files under the subtree, in `rglob`
traversal order — and the single base template file's content when it
exists. -/
structure TemplatesDir where
  frameworks : List (Str × List (FPath × Str))
  base_template : Option Str
  deriving DecidableEq, Repr

/-- Locate `frameworks/<key>`; `none` models an absent subtree. -/
def frameworkSubtree (tpl : TemplatesDir) (key : Str) : Option (List (FPath × Str)) :=
  (tpl.frameworks.find? (fun kv => kv.1 == key)).map (fun kv => kv.2)

/-- Body of the `for file_path in framework_dir.rglob("*")` loop for one
regular file: create the destination's parent directories, read, apply
`replace_variables`, write, and append the destination path (note: the
destination path, `output_dir / relative_path`) to the accumulator. -/
def copyStep (config : ProjectConfig) (now : Clock) (output_dir : FPath)
    (acc : FS × List FPath) (file : FPath × Str) : FS × List FPath :=
  let dest_path := output_dir ++ file.1
  let fs1 := mkdirParents acc.1 dest_path.dropLast
  let processed := replace_variables file.2 config now
  (writeFile fs1 dest_path processed, acc.2 ++ [dest_path])

/-- `ProjectGenerator.copy_framework_template`. -/
def copy_framework_template (tpl : TemplatesDir) (config : ProjectConfig)
    (now : Clock) (fs : FS) (output_dir : FPath) : FS × List FPath :=
  match frameworkSubtree tpl config.framework_config.name with
  | none => (fs, [])
  | some files =>
    let fs0 := mkdirParents fs output_dir
    files.foldl (copyStep config now output_dir) (fs0, [])

/-- `ProjectGenerator.generate_from_base_template`. -/
def generate_from_base_template (tpl : TemplatesDir) (config : ProjectConfig)
    (now : Clock) (fs : FS) (output_dir : FPath) : FS × Option FPath :=
  match tpl.base_template with
  | none => (fs, none)
  | some content =>
    let output_file := output_dir ++ ["COPILOT_INSTRUCTIONS.md".data]
    let fs1 := mkdirParents fs output_dir
    (writeFile fs1 output_file (replace_variables content config now), some output_file)

/-- The fixed directory list chosen by `create_directory_structure`,
keyed by the framework's language. -/
def structureDirs (language : Str) : List FPath :=
  if language = "Python".data then
    [["src".data, "services".data], ["src".data, "config".data],
     ["src".data, "operations".data], ["src".data, "utilities".data],
     ["tests".data, "services".data], ["tests".data, "config".data],
     ["tests".data, "operations".data], ["tests".data, "utilities".data]]
  else if language = "TypeScript".data then
    [["src".data, "services".data], ["src".data, "config".data],
     ["src".data, "utils".data], ["src".data, "types".data],
     ["tests".data, "services".data], ["tests".data, "config".data],
     ["tests".data, "utils".data]]
  else
    [["src".data, "services".data], ["src".data, "config".data],
     ["tests".data, "services".data], ["tests".data, "config".data]]

/-- Body of the `for dir_path in directories` loop of
`create_directory_structure`: create the directory (with parents), and for
Python touch the `__init__.py` package marker in it. -/
def createDirStep (output_dir : FPath) (framework : FrameworkConfig)
    (acc : FS) (dir_path : FPath) : FS :=
  if framework.language = "Python".data then
    touchFile (mkdirParents acc (output_dir ++ dir_path))
      (output_dir ++ dir_path ++ ["__init__.py".data])
  else mkdirParents acc (output_dir ++ dir_path)

/-- `ProjectGenerator.create_directory_structure`. -/
def create_directory_structure (fs : FS) (output_dir : FPath)
    (framework : FrameworkConfig) : FS :=
  (structureDirs framework.language).foldl (createDirStep output_dir framework) fs

/-- `_get_install_command`. -/
def get_install_command (fc : FrameworkConfig) : Str :=
  if fc.package_manager = "Poetry".data then "poetry install".data
  else if fc.package_manager = "npm/yarn".data then "npm install  # or: yarn install".data
  else "# Install dependencies".data

/-- `_get_test_command`. -/
def get_test_command (fc : FrameworkConfig) : Str :=
  if fc.test_framework = "pytest".data then "poetry run pytest --cov=src".data
  else if fc.test_framework = "Jest".data then "npm test  # or: yarn test".data
  else if fc.test_framework = "Behave + pytest".data then
    "poetry run behave && poetry run pytest".data
  else "# Run tests".data

/-- `_get_run_command`. -/
def get_run_command (fc : FrameworkConfig) : Str :=
  if fc.framework = "FastAPI".data then "poetry run uvicorn src.main:app --reload".data
  else if fc.framework = "Express".data then "npm start  # or: yarn start".data
  else if fc.framework = "Behave".data then "poetry run python src/main.py".data
  else "# Run application".data

/-- `_get_structure_example`. -/
def get_structure_example (fc : FrameworkConfig) : Str :=
  if fc.language = "Python".data then
    ("src/\n├── services/     # Business logic\n├── config/       # Configuration\n├── operations/   # Complex operations\n├── utilities/    # Helper functions\n└── main.py       # Entry point\n\ntests/\n├── services/     # Service tests\n└── test_*.py     # Other tests").data
  else if fc.language = "TypeScript".data then
    ("src/\n├── services/     # Business logic\n├── config/       # Configuration\n├── utils/        # Utilities\n├── types/        # Type definitions\n└── index.ts      # Entry point\n\ntests/\n├── services/     # Service tests\n└── *.test.ts     # Test files").data
  else
    ("src/\n└── main.*        # Entry point\n\ntests/\n└── test_*.*      # Tests").data

/-- The f-string assembled by `generate_readme`, as literal pieces
interleaved with the interpolated values. -/
def readme_content (config : ProjectConfig) (now : Clock) : Str :=
  let fc := config.framework_config
  "# ".data ++ config.project_name ++
  "\n\n".data ++ config.description ++
  "\n\n## Stack\n\n- **Language**: ".data ++ fc.language ++ " ".data ++ fc.language_version ++
  "\n- **Framework**: ".data ++ fc.framework ++
  "\n- **Package Manager**: ".data ++ fc.package_manager ++
  "\n- **Testing**: ".data ++ fc.test_framework ++ " + ".data ++ fc.coverage_tool ++
  "\n- **CI/CD**: GitLab CI/CD\n\n## Getting Started\n\n### Prerequisites\n\n- ".data ++
  fc.language ++ " ".data ++ fc.language_version ++
  "\n- ".data ++ fc.package_manager ++
  "\n- Docker\n\n### Installation\n\n```bash\n# Install dependencies\n".data ++
  get_install_command fc ++
  "\n\n# Run tests\n".data ++ get_test_command fc ++
  "\n\n# Run application\n".data ++ get_run_command fc ++
  "\n```\n\n## Project Structure\n\n```\n".data ++ get_structure_example fc ++
  "\n```\n\n## Development\n\nSee `COPILOT_INSTRUCTIONS.md` for detailed coding standards and guidelines.\n\n## Testing\n\n- Minimum coverage: ".data ++
  config.coverage_threshold ++
  "%\n- All code must have corresponding tests\n\n## CI/CD\n\nPipeline stages: `lint` → `test` → `build` → `deploy`\n\nSee `.gitlab-ci.yml` for details.\n\n## Author\n\n".data ++
  config.author ++
  "\n\n## Generated\n\nThis project was generated on ".data ++ now.generation_date ++
  " using the project template system.\n".data

/-- `ProjectGenerator.generate_readme`. -/
def generate_readme (config : ProjectConfig) (now : Clock) (fs : FS)
    (output_dir : FPath) : FS :=
  writeFile fs (output_dir ++ ["README.md".data]) (readme_content config now)

/-- Outcome of one process run: a normal return from `generate_project`
(`main` then finishes and the process exits 0), or termination with an
explicit exit code. -/
inductive RunResult where
  | normal (fs : FS)
  | exited (code : Nat) (fs : FS)
  deriving DecidableEq, Repr

/-- `any(output_dir.iterdir())`: the directory has at least one immediate
child (a subdirectory or a file). -/
def dirNotEmpty (fs : FS) (p : FPath) : Bool :=
  fs.dirs.any (fun q => q.length == p.length + 1 && p.isPrefixOf q) ||
  fs.files.any (fun f => f.1.length == p.length + 1 && p.isPrefixOf f.1)

/-- Steps 3-6 of `generate_project` (after config resolution and the
overwrite check): template copy with base-template fallback, directory
skeleton, README. -/
def runGeneration (tpl : TemplatesDir) (config : ProjectConfig) (now : Clock)
    (fs : FS) (output_dir : FPath) (use_framework_template : Bool) : FS :=
  let fs1 :=
    if use_framework_template then
      let r := copy_framework_template tpl config now fs output_dir
      if r.2.isEmpty then (generate_from_base_template tpl config now r.1 output_dir).1
      else r.1
    else (generate_from_base_template tpl config now fs output_dir).1
  let fs2 := create_directory_structure fs1 output_dir config.framework_config
  generate_readme config now fs2 output_dir

/-- `ProjectGenerator.generate_project`.  A declined overwrite
confirmation is a plain `return` (a normal result); `output_dir` existing
as a regular file makes `iterdir()` raise, which `main` catches (exit 1);
an exhausted input stream at the confirmation prompt models `EOFError`
(exit 1). -/
def generate_project (tpl : TemplatesDir) (fs : FS) (output_dir : FPath)
    (framework project_name : Option Str) (use_framework_template : Bool)
    (inputs : List Str) (now : Clock) : RunResult :=
  match get_project_config framework project_name inputs with
  | ConfigResult.exit1 => RunResult.exited 1 fs
  | ConfigResult.ok config inputs1 =>
    if fs.hasFile output_dir then RunResult.exited 1 fs
    else if fs.hasDir output_dir && dirNotEmpty fs output_dir then
      match inputs1 with
      | [] => RunResult.exited 1 fs
      | entered :: _ =>
        let response := get_user_input entered (some "n".data)
        if pyLower response = "y".data then
          RunResult.normal (runGeneration tpl config now fs output_dir use_framework_template)
        else RunResult.normal fs
    else RunResult.normal (runGeneration tpl config now fs output_dir use_framework_template)

/-- `main` (one generation run): `--base-only` inverts
`use_framework_template`; a normal return exits the process with code 0.
Returns (exit code, final filesystem). -/
def mainRun (tpl : TemplatesDir) (fs : FS) (output_dir : FPath)
    (framework project_name : Option Str) (base_only : Bool)
    (inputs : List Str) (now : Clock) : Nat × FS :=
  match generate_project tpl fs output_dir framework project_name (!base_only) inputs now with
  | RunResult.normal fs1 => (0, fs1)
  | RunResult.exited code fs1 => (code, fs1)

theorem replaceF_nil (pat rep : Str) (fuel : Nat) : replaceF pat rep fuel [] = [] := by
  cases fuel <;> rfl

/-- The fuel argument of `replaceF` is irrelevant as long as it is at least
the length of the scanned string. -/
theorem replaceF_fuel (pat rep : Str) :
    ∀ (f g : Nat) (s : Str), s.length ≤ f → s.length ≤ g →
      replaceF pat rep f s = replaceF pat rep g s := by
  intro f
  induction f with
  | zero =>
    intro g s hf _
    have hs : s = [] := List.eq_nil_of_length_eq_zero (Nat.le_zero.mp hf)
    subst hs
    simp [replaceF_nil]
  | succ f ih =>
    intro g s hf hg
    cases s with
    | nil => simp [replaceF_nil]
    | cons c cs =>
      cases g with
      | zero => simp at hg
      | succ g =>
        have hcs : cs.length ≤ f := Nat.succ_le_succ_iff.mp hf
        have hcs' : cs.length ≤ g := Nat.succ_le_succ_iff.mp hg
        cases hp : pat.isPrefixOf (c :: cs) with
        | false =>
          simp only [replaceF, hp, Bool.false_eq_true, if_false]
          exact congrArg (c :: ·) (ih g cs hcs hcs')
        | true =>
          simp only [replaceF, hp, if_true]
          have hd : (cs.drop (pat.length - 1)).length ≤ cs.length := by
            simp [List.length_drop]
          exact congrArg (rep ++ ·) (ih g _ (le_trans hd hcs) (le_trans hd hcs'))

theorem pyReplace_eq_replaceF (s pat rep : Str) (f : Nat) (h : s.length ≤ f) :
    pyReplace s pat rep = replaceF pat rep f s :=
  replaceF_fuel pat rep s.length f s le_rfl h

/-- `str.replace` is the identity when the pattern does not occur in the
string. -/
theorem pyReplace_no_infix (s pat rep : Str) (h : ¬ pat <:+: s) :
    pyReplace s pat rep = s := by
  suffices hgen : ∀ (f : Nat) (s : Str), s.length ≤ f → ¬ pat <:+: s →
      replaceF pat rep f s = s from hgen s.length s le_rfl h
  intro f
  induction f with
  | zero =>
    intro s hf _
    have hs : s = [] := List.eq_nil_of_length_eq_zero (Nat.le_zero.mp hf)
    subst hs
    exact replaceF_nil pat rep 0
  | succ f ih =>
    intro s hf hocc
    cases s with
    | nil => exact replaceF_nil pat rep (f + 1)
    | cons c cs =>
      cases hp : pat.isPrefixOf (c :: cs) with
      | true =>
        exact absurd (List.isPrefixOf_iff_prefix.mp hp).isInfix hocc
      | false =>
        simp only [replaceF, hp, Bool.false_eq_true, if_false]
        refine congrArg (c :: ·) (ih cs (Nat.succ_le_succ_iff.mp hf) ?_)
        exact fun hc => hocc (List.infix_cons hc)

/-- Chained sequential replacement is the identity when none of the
patterns occurs in the content. -/
theorem applyRepls_id (content : Str) (pairs : List (Str × Str))
    (h : ∀ pv ∈ pairs, ¬ pv.1 <:+: content) : applyRepls content pairs = content := by
  induction pairs with
  | nil => rfl
  | cons p ps ih =>
    have h1 : pyReplace content p.1 p.2 = content :=
      pyReplace_no_infix content p.1 p.2 (h p (by simp))
    show applyRepls (pyReplace content p.1 p.2) ps = content
    rw [h1]
    exact ih (fun pv hm => h pv (by simp [hm]))

theorem mem_replacements_fst {pv : Str × Str} (config : ProjectConfig) (now : Clock)
    (h : pv ∈ replacements config now) : pv.1 ∈ tokens := by
  have hm : pv.1 ∈ (replacements config now).map Prod.fst := List.mem_map_of_mem _ h
  have e : (replacements config now).map Prod.fst = tokens := rfl
  rwa [e] at hm

/-- C5: `substitute` is the identity on any input containing no occurrence
of any recognized token, for every config (and every clock). -/
theorem c5_substitute_identity_without_tokens
    (config : ProjectConfig) (now : Clock) (x : Str)
    (h : ∀ t ∈ tokens, ¬ t <:+: x) :
    replace_variables x config now = x :=
  applyRepls_id x (replacements config now)
    (fun pv hm => h pv.1 (mem_replacements_fst config now hm))

/-- The `python-fastapi` entry of the registry, for concrete witnesses. -/
def fcPythonFastapi : FrameworkConfig :=
  ⟨"python-fastapi".data, "Python + FastAPI".data, "Python".data, "FastAPI".data,
   "Poetry".data, "pytest".data, "pytest-cov".data, "python:3.11-slim".data,
   "3.11.x".data, "Modern Python web API with FastAPI, Poetry, and pytest".data⟩

/-- A concrete resolved configuration, for witnesses. -/
def demoConfig : ProjectConfig :=
  ⟨fcPythonFastapi, "demo".data, "Your Team".data,
   "A Python + FastAPI project".data, [], "80".data⟩

/-- A concrete clock, for witnesses. -/
def demoClock : Clock := ⟨"2026-10-12".data, "2026".data⟩

theorem c5_witness :
    (∀ t ∈ tokens, ¬ t <:+: "hello world".data) ∧
      replace_variables "hello world".data demoConfig demoClock = "hello world".data :=
  ⟨by decide, c5_substitute_identity_without_tokens demoConfig demoClock _ (by decide)⟩

/-- C10: for every registered framework key, lookup returns a config whose
`name` field equals the key; lookup of an unregistered key yields `none`. -/
theorem c10_lookup_registered_and_unregistered :
    (∀ key config, (key, config) ∈ FRAMEWORKS →
       ∃ c, frameworksLookup key = some c ∧ c.name = key) ∧
    (∀ key, (∀ config, (key, config) ∉ FRAMEWORKS) → frameworksLookup key = none) := by
  constructor
  · intro key config h
    simp only [FRAMEWORKS, List.mem_cons, List.mem_singleton, Prod.mk.injEq,
      List.not_mem_nil] at h
    rcases h with ⟨hk, _⟩ | ⟨hk, _⟩ | ⟨hk, _⟩ | h
    · subst hk; exact ⟨_, rfl, rfl⟩
    · subst hk; exact ⟨_, rfl, rfl⟩
    · subst hk; exact ⟨_, rfl, rfl⟩
    · exact absurd h (by simp)
  · intro key h
    unfold frameworksLookup
    rw [List.find?_eq_none.mpr]
    · rfl
    · intro kv hkv hbeq
      have hk : kv.1 = key := by simpa using hbeq
      exact h kv.2 (by rw [← hk]; simpa using hkv)

theorem c10_witness :
    (("python-fastapi".data, fcPythonFastapi) ∈ FRAMEWORKS ∧
       ∃ c, frameworksLookup "python-fastapi".data = some c ∧
         c.name = "python-fastapi".data) ∧
    frameworksLookup "no-such-framework".data = none :=
  ⟨⟨by decide, c10_lookup_registered_and_unregistered.1 "python-fastapi".data
      fcPythonFastapi (by decide)⟩,
   c10_lookup_registered_and_unregistered.2 "no-such-framework".data (by
     intro config hmem
     simp only [FRAMEWORKS, List.mem_cons, Prod.mk.injEq, List.not_mem_nil,
       or_false] at hmem
     rcases hmem with ⟨hk, _⟩ | ⟨hk, _⟩ | ⟨hk, _⟩ <;> exact absurd hk (by decide))⟩

/-- C6: resolving `python-fastapi` with no project name and all-empty
interactive answers yields project name `my-python-fastapi-project` and
coverage threshold `"80"`; in general an empty (after stripping) entered
string falls back to the prompt's default. -/
theorem c6_resolve_config_defaults :
    (∃ config,
       get_project_config (some "python-fastapi".data) none [[], [], [], [], []] =
         ConfigResult.ok config [] ∧
       config.project_name = "my-python-fastapi-project".data ∧
       config.coverage_threshold = "80".data) ∧
    (∀ entered default, pyStrip entered = [] →
       get_user_input entered (some default) = default) := by
  constructor
  · exact ⟨_, rfl, rfl, rfl⟩
  · intro entered d h
    simp [get_user_input, h]

theorem c6_witness :
    pyStrip "  ".data = [] ∧
      get_user_input "  ".data (some "Your Team".data) = "Your Team".data :=
  ⟨by decide, c6_resolve_config_defaults.2 "  ".data "Your Team".data (by decide)⟩

/-- A fold whose step fixes the initial state fixes it overall. -/
theorem foldl_fixed {α β : Type _} (f : β → α → β) (s : β) (l : List α)
    (h : ∀ x ∈ l, f s x = s) : l.foldl f s = s := by
  induction l with
  | nil => rfl
  | cons x xs ih =>
    rw [List.foldl_cons, h x (by simp)]
    exact ih (fun y hy => h y (by simp [hy]))

/-- A property preserved by every fold step holds of the fold result. -/
theorem foldl_pres {α β : Type _} (f : β → α → β) (P : β → Prop)
    (hf : ∀ acc x, P acc → P (f acc x)) :
    ∀ (l : List α) (s : β), P s → P (l.foldl f s) := by
  intro l
  induction l with
  | nil => exact fun s h => h
  | cons x xs ih => exact fun s h => ih _ (hf s x h)

/-- A preserved property established by some element of the fold holds of
the fold result. -/
theorem foldl_reach {α β : Type _} (f : β → α → β) (P : β → Prop)
    (hf : ∀ acc x, P acc → P (f acc x)) :
    ∀ (l : List α) (s : β) (x : α), x ∈ l → (∀ acc, P (f acc x)) →
      P (l.foldl f s) := by
  intro l
  induction l with
  | nil => intro s x hx _; exact absurd hx (List.not_mem_nil x)
  | cons y ys ih =>
    intro s x hx hach
    rcases List.mem_cons.mp hx with rfl | hx'
    · exact foldl_pres f P hf ys _ (hach s)
    · exact ih _ x hx' hach

theorem FS.hasDir_iff {fs : FS} {p : FPath} : fs.hasDir p = true ↔ p ∈ fs.dirs := by
  simp [FS.hasDir]

theorem FS.hasFile_iff {fs : FS} {p : FPath} :
    fs.hasFile p = true ↔ ∃ c, (p, c) ∈ fs.files := by
  unfold FS.hasFile
  rw [List.any_eq_true]
  constructor
  · rintro ⟨f, hf, hbe⟩
    have h1 : f.1 = p := by simpa using hbe
    exact ⟨f.2, by rw [← h1]; simpa using hf⟩
  · rintro ⟨c, hc⟩
    exact ⟨(p, c), hc, by simp⟩

theorem addDir_files (fs : FS) (p : FPath) : (addDir fs p).files = fs.files := by
  unfold addDir; split <;> rfl

theorem addDir_dirs_mono {fs : FS} {q : FPath} (p : FPath) (h : q ∈ fs.dirs) :
    q ∈ (addDir fs p).dirs := by
  unfold addDir; split
  · exact h
  · simpa using Or.inl h

theorem addDir_dirs_self (fs : FS) (p : FPath) : p ∈ (addDir fs p).dirs := by
  unfold addDir; split
  · next h => exact FS.hasDir_iff.mp h
  · simp

theorem addDir_id {fs : FS} {p : FPath} (h : p ∈ fs.dirs) : addDir fs p = fs := by
  unfold addDir
  rw [if_pos (FS.hasDir_iff.mpr h)]

theorem mkdirParents_files (fs : FS) (p : FPath) :
    (mkdirParents fs p).files = fs.files := by
  unfold mkdirParents
  generalize p.inits = l
  induction l generalizing fs with
  | nil => rfl
  | cons q qs ih => rw [List.foldl_cons, ih, addDir_files]

theorem mkdirParents_dirs_mono {fs : FS} {q : FPath} (p : FPath) (h : q ∈ fs.dirs) :
    q ∈ (mkdirParents fs p).dirs :=
  foldl_pres addDir (fun s => q ∈ s.dirs) (fun _ x h => addDir_dirs_mono x h)
    p.inits fs h

theorem mkdirParents_mem {q p : FPath} (fs : FS) (h : q ∈ p.inits) :
    q ∈ (mkdirParents fs p).dirs :=
  foldl_reach addDir (fun s => q ∈ s.dirs) (fun _ x h => addDir_dirs_mono x h)
    p.inits fs q h (fun acc => addDir_dirs_self acc q)

theorem mkdirParents_id {fs : FS} {p : FPath} (h : ∀ q ∈ p.inits, q ∈ fs.dirs) :
    mkdirParents fs p = fs :=
  foldl_fixed addDir fs p.inits (fun q hq => addDir_id (h q hq))

theorem mkdirParents_hasFile (fs : FS) (p q : FPath) :
    (mkdirParents fs p).hasFile q = fs.hasFile q := by
  unfold FS.hasFile
  rw [mkdirParents_files]

theorem touchFile_dirs (fs : FS) (p : FPath) : (touchFile fs p).dirs = fs.dirs := by
  unfold touchFile; split <;> rfl

theorem touchFile_dirs_mono {fs : FS} {q : FPath} (p : FPath) (h : q ∈ fs.dirs) :
    q ∈ (touchFile fs p).dirs := by
  rw [touchFile_dirs]; exact h

theorem touchFile_hasFile_mono {fs : FS} {q : FPath} (p : FPath)
    (h : fs.hasFile q = true) : (touchFile fs p).hasFile q = true := by
  unfold touchFile; split
  · exact h
  · unfold FS.hasFile at h ⊢
    simp only [List.any_append, h, Bool.true_or]

theorem touchFile_hasFile_self (fs : FS) (p : FPath) :
    (touchFile fs p).hasFile p = true := by
  unfold touchFile; split
  · assumption
  · unfold FS.hasFile
    simp [List.any_append]

theorem touchFile_id {fs : FS} {p : FPath} (h : fs.hasFile p = true) :
    touchFile fs p = fs := by
  unfold touchFile
  rw [if_pos h]

theorem createDirStep_dirs_mono {q : FPath} (out : FPath) (fc : FrameworkConfig) :
    ∀ (acc : FS) (d : FPath), q ∈ acc.dirs → q ∈ (createDirStep out fc acc d).dirs := by
  intro acc d h
  unfold createDirStep
  split
  · exact touchFile_dirs_mono _ (mkdirParents_dirs_mono _ h)
  · exact mkdirParents_dirs_mono _ h

theorem createDirStep_hasFile_mono {q : FPath} (out : FPath) (fc : FrameworkConfig) :
    ∀ (acc : FS) (d : FPath), acc.hasFile q = true →
      (createDirStep out fc acc d).hasFile q = true := by
  intro acc d h
  unfold createDirStep
  split
  · exact touchFile_hasFile_mono _ (by rw [mkdirParents_hasFile]; exact h)
  · rw [mkdirParents_hasFile]; exact h

theorem createDirStep_dirs_mem {q : FPath} (out : FPath) (fc : FrameworkConfig)
    (d : FPath) (hq : q ∈ (out ++ d).inits) :
    ∀ acc : FS, q ∈ (createDirStep out fc acc d).dirs := by
  intro acc
  unfold createDirStep
  split
  · exact touchFile_dirs_mono _ (mkdirParents_mem acc hq)
  · exact mkdirParents_mem acc hq

/-- C9: `create_directory_structure` is idempotent — running it a second
time on its own result (same output directory, same config) changes
nothing, for every starting filesystem (pre-existing directories are
handled by `exist_ok=True`, not errors). -/
theorem c9_create_directory_structure_idempotent (fs : FS) (out : FPath)
    (fc : FrameworkConfig) :
    create_directory_structure (create_directory_structure fs out fc) out fc =
      create_directory_structure fs out fc := by
  show (structureDirs fc.language).foldl (createDirStep out fc)
      (create_directory_structure fs out fc) = create_directory_structure fs out fc
  apply foldl_fixed
  intro d hd
  have hdirs : ∀ q ∈ (out ++ d).inits, q ∈ (create_directory_structure fs out fc).dirs := by
    intro q hq
    show q ∈ ((structureDirs fc.language).foldl (createDirStep out fc) fs).dirs
    exact foldl_reach _ (fun s => q ∈ s.dirs) (createDirStep_dirs_mono out fc)
      (structureDirs fc.language) fs d hd (createDirStep_dirs_mem out fc d hq)
  unfold createDirStep
  split
  · next hl =>
    rw [mkdirParents_id hdirs]
    apply touchFile_id
    show (create_directory_structure fs out fc).hasFile (out ++ d ++ ["__init__.py".data]) = true
    refine foldl_reach _ (fun s => s.hasFile (out ++ d ++ ["__init__.py".data]) = true)
      (createDirStep_hasFile_mono out fc) (structureDirs fc.language) fs d hd ?_
    intro acc
    unfold createDirStep
    rw [if_pos hl]
    exact touchFile_hasFile_self _ _
  · exact mkdirParents_id hdirs

/-- The concrete output directory used in skeleton statements. -/
def outDir : FPath := ["out".data]

/-- The exact tree produced for a Python-language config in an empty
filesystem: the eight listed directories (with their implicitly created
parents) and an empty `__init__.py` marker in each of the eight. -/
def pythonSkeleton : FS :=
  ⟨[[], ["out".data],
    ["out".data, "src".data],
    ["out".data, "src".data, "services".data],
    ["out".data, "src".data, "config".data],
    ["out".data, "src".data, "operations".data],
    ["out".data, "src".data, "utilities".data],
    ["out".data, "tests".data],
    ["out".data, "tests".data, "services".data],
    ["out".data, "tests".data, "config".data],
    ["out".data, "tests".data, "operations".data],
    ["out".data, "tests".data, "utilities".data]],
   [(["out".data, "src".data, "services".data, "__init__.py".data], []),
    (["out".data, "src".data, "config".data, "__init__.py".data], []),
    (["out".data, "src".data, "operations".data, "__init__.py".data], []),
    (["out".data, "src".data, "utilities".data, "__init__.py".data], []),
    (["out".data, "tests".data, "services".data, "__init__.py".data], []),
    (["out".data, "tests".data, "config".data, "__init__.py".data], []),
    (["out".data, "tests".data, "operations".data, "__init__.py".data], []),
    (["out".data, "tests".data, "utilities".data, "__init__.py".data], [])]⟩

/-- The exact tree produced for a TypeScript-language config in an empty
filesystem: the seven listed directories (with parents), no marker files. -/
def typescriptSkeleton : FS :=
  ⟨[[], ["out".data],
    ["out".data, "src".data],
    ["out".data, "src".data, "services".data],
    ["out".data, "src".data, "config".data],
    ["out".data, "src".data, "utils".data],
    ["out".data, "src".data, "types".data],
    ["out".data, "tests".data],
    ["out".data, "tests".data, "services".data],
    ["out".data, "tests".data, "config".data],
    ["out".data, "tests".data, "utils".data]],
   []⟩

/-- The exact tree produced for any other language in an empty filesystem:
the four fallback directories (with parents), no marker files. -/
def fallbackSkeleton : FS :=
  ⟨[[], ["out".data],
    ["out".data, "src".data],
    ["out".data, "src".data, "services".data],
    ["out".data, "src".data, "config".data],
    ["out".data, "tests".data],
    ["out".data, "tests".data, "services".data],
    ["out".data, "tests".data, "config".data]],
   []⟩

set_option maxRecDepth 4000 in
/-- C8: the directory skeleton is exactly the fixed list keyed by the
config's language — eight directories with an empty `__init__.py` marker
in each for Python, seven with no markers for TypeScript, four with no
markers for anything else. -/
theorem c8_create_directory_structure_exact (fc : FrameworkConfig) :
    (fc.language = "Python".data →
       create_directory_structure ⟨[], []⟩ outDir fc = pythonSkeleton) ∧
    (fc.language = "TypeScript".data →
       create_directory_structure ⟨[], []⟩ outDir fc = typescriptSkeleton) ∧
    (fc.language ≠ "Python".data → fc.language ≠ "TypeScript".data →
       create_directory_structure ⟨[], []⟩ outDir fc = fallbackSkeleton) := by
  refine ⟨fun h => ?_, fun h => ?_, fun h1 h2 => ?_⟩
  · unfold create_directory_structure createDirStep
    simp only [h]
    decide
  · unfold create_directory_structure createDirStep
    simp only [h]
    decide
  · unfold create_directory_structure createDirStep structureDirs
    simp only [if_neg h1, if_neg h2]
    decide

/-- The `typescript-nodejs` entry of the registry, for concrete witnesses. -/
def fcTypescriptNodejs : FrameworkConfig :=
  ⟨"typescript-nodejs".data, "TypeScript + Node.js + Express".data, "TypeScript".data,
   "Express".data, "npm/yarn".data, "Jest".data, "Istanbul".data, "node:20-alpine".data,
   "5.3+".data, "TypeScript backend with Express, Jest, and ESLint".data⟩

/-- A config whose language is neither Python nor TypeScript, for the
fallback branch of C8. -/
def fcOtherLang : FrameworkConfig :=
  ⟨"go-gin".data, "Go + Gin".data, "Go".data, "Gin".data, "go mod".data, "go test".data,
   "cover".data, "golang:1.22".data, "1.22".data, "Go demo".data⟩

theorem c8_witness :
    create_directory_structure ⟨[], []⟩ outDir fcPythonFastapi = pythonSkeleton ∧
    create_directory_structure ⟨[], []⟩ outDir fcTypescriptNodejs = typescriptSkeleton ∧
    create_directory_structure ⟨[], []⟩ outDir fcOtherLang = fallbackSkeleton :=
  ⟨(c8_create_directory_structure_exact fcPythonFastapi).1 (by decide),
   (c8_create_directory_structure_exact fcTypescriptNodejs).2.1 (by decide),
   (c8_create_directory_structure_exact fcOtherLang).2.2 (by decide) (by decide)⟩

theorem writeFile_dirs (fs : FS) (p : FPath) (c : Str) :
    (writeFile fs p c).dirs = fs.dirs := by
  unfold writeFile; split <;> rfl

theorem find?_map_update (p : FPath) (c : Str) :
    ∀ l : List (FPath × Str), l.any (fun f => f.1 == p) = true →
      (l.map (fun f => if f.1 == p then (p, c) else f)).find? (fun f => f.1 == p) =
        some (p, c) := by
  intro l
  induction l with
  | nil => simp
  | cons x xs ih =>
    intro h
    by_cases hx : x.1 = p
    · simp [List.find?_cons, hx]
    · have hx' : (x.1 == p) = false := beq_eq_false_iff_ne.mpr hx
      simp only [List.map_cons, hx', if_false, List.find?_cons, Bool.false_eq_true]
      exact ih (by simpa [List.any_cons, hx'] using h)

theorem find?_append_last (p : FPath) (c : Str) (l : List (FPath × Str)) :
    (l ++ [(p, c)]).find? (fun f => f.1 == p) =
      some ((l.find? (fun f => f.1 == p)).getD (p, c)) := by
  induction l with
  | nil => simp [List.find?_cons]
  | cons x xs ih =>
    by_cases hx : x.1 = p
    · simp [List.find?_cons, hx]
    · have hx' : (x.1 == p) = false := beq_eq_false_iff_ne.mpr hx
      simpa only [List.cons_append, List.find?_cons, hx', Bool.false_eq_true] using ih

theorem hasFile_false_find?_none {fs : FS} {p : FPath} (h : ¬ fs.hasFile p = true) :
    fs.files.find? (fun f => f.1 == p) = none := by
  rw [List.find?_eq_none]
  intro x hx hbe
  exact h (by unfold FS.hasFile; exact List.any_eq_true.mpr ⟨x, hx, hbe⟩)

/-- After `writeFile fs p c`, reading `p` yields `c`. -/
theorem readFile_writeFile_self (fs : FS) (p : FPath) (c : Str) :
    readFile (writeFile fs p c) p = some c := by
  unfold writeFile readFile
  split
  · next h =>
    rw [find?_map_update p c fs.files h]
    rfl
  · next h =>
    show ((fs.files ++ [(p, c)]).find? (fun f => f.1 == p)).map (fun f => f.2) = some c
    rw [find?_append_last, hasFile_false_find?_none h]
    rfl

/-- `writeFile` at one path does not affect reads at another. -/
theorem readFile_writeFile_other (fs : FS) (p : FPath) (c : Str) (q : FPath)
    (h : q ≠ p) : readFile (writeFile fs p c) q = readFile fs q := by
  unfold writeFile readFile
  split
  · show ((fs.files.map (fun f => if f.1 == p then (p, c) else f)).find?
        (fun f => f.1 == q)).map (fun f => f.2) =
      (fs.files.find? (fun f => f.1 == q)).map (fun f => f.2)
    congr 1
    induction fs.files with
    | nil => rfl
    | cons x xs ih =>
      by_cases hx : x.1 = p
      · have hq1 : ((p : FPath) == q) = false := beq_eq_false_iff_ne.mpr (Ne.symm h)
        have hq2 : (x.1 == q) = false :=
          beq_eq_false_iff_ne.mpr (by rw [hx]; exact Ne.symm h)
        simp only [List.map_cons, hx, beq_self_eq_true, if_true, List.find?_cons, hq1, hq2,
          Bool.false_eq_true, if_false]
        exact ih
      · have hx' : (x.1 == p) = false := beq_eq_false_iff_ne.mpr hx
        simp only [List.map_cons, hx', if_false, List.find?_cons, Bool.false_eq_true]
        by_cases hq : x.1 = q
        · rw [show (x.1 == q) = true from by simp [hq]]
        · rw [show (x.1 == q) = false from by simp [hq]]
          exact ih
  · show ((fs.files ++ [(p, c)]).find? (fun f => f.1 == q)).map (fun f => f.2) =
      (fs.files.find? (fun f => f.1 == q)).map (fun f => f.2)
    congr 1
    rw [List.find?_append]
    have he : ([(p, c)].find? (fun f => f.1 == q)) = none := by
      simp [List.find?_cons, beq_eq_false_iff_ne.mpr (Ne.symm h)]
    rw [he]
    simp

theorem readFile_mkdirParents (fs : FS) (p q : FPath) :
    readFile (mkdirParents fs p) q = readFile fs q := by
  unfold readFile
  rw [mkdirParents_files]

theorem copyStep_snd (config : ProjectConfig) (now : Clock) (out : FPath)
    (acc : FS × List FPath) (file : FPath × Str) :
    (copyStep config now out acc file).2 = acc.2 ++ [out ++ file.1] := rfl

theorem foldl_copyStep_snd (config : ProjectConfig) (now : Clock) (out : FPath) :
    ∀ (files : List (FPath × Str)) (acc : FS × List FPath),
      (files.foldl (copyStep config now out) acc).2 =
        acc.2 ++ files.map (fun f => out ++ f.1) := by
  intro files
  induction files with
  | nil => intro acc; simp
  | cons f fsn ih =>
    intro acc
    rw [List.foldl_cons, ih, copyStep_snd, List.map_cons, List.append_assoc,
      List.singleton_append]

theorem copyStep_readFile_other (config : ProjectConfig) (now : Clock) (out : FPath)
    (acc : FS × List FPath) (file : FPath × Str) (q : FPath)
    (h : q ≠ out ++ file.1) :
    readFile (copyStep config now out acc file).1 q = readFile acc.1 q := by
  show readFile (writeFile (mkdirParents acc.1 (out ++ file.1).dropLast)
    (out ++ file.1) (replace_variables file.2 config now)) q = readFile acc.1 q
  rw [readFile_writeFile_other _ _ _ _ h, readFile_mkdirParents]

theorem foldl_copyStep_readFile_preserve (config : ProjectConfig) (now : Clock)
    (out : FPath) :
    ∀ (files : List (FPath × Str)) (acc : FS × List FPath) (q : FPath),
      q ∉ files.map (fun f => out ++ f.1) →
      readFile (files.foldl (copyStep config now out) acc).1 q = readFile acc.1 q := by
  intro files
  induction files with
  | nil => intro acc q _; rfl
  | cons f fsn ih =>
    intro acc q hq
    have h1 : q ≠ out ++ f.1 := fun he => hq (by simp [he])
    have h2 : q ∉ fsn.map (fun f => out ++ f.1) := fun hm => hq (by simp [hm])
    rw [List.foldl_cons, ih _ q h2, copyStep_readFile_other _ _ _ _ _ _ h1]

theorem copyStep_dirs_mono {q : FPath} (config : ProjectConfig) (now : Clock)
    (out : FPath) :
    ∀ (acc : FS × List FPath) (file : FPath × Str),
      q ∈ acc.1.dirs → q ∈ (copyStep config now out acc file).1.dirs := by
  intro acc file h
  show q ∈ (writeFile (mkdirParents acc.1 (out ++ file.1).dropLast)
    (out ++ file.1) (replace_variables file.2 config now)).dirs
  rw [writeFile_dirs]
  exact mkdirParents_dirs_mono _ h

theorem copyStep_dirs_mem {q : FPath} (config : ProjectConfig) (now : Clock)
    (out : FPath) (file : FPath × Str)
    (hq : q ∈ (out ++ file.1).dropLast.inits) :
    ∀ acc : FS × List FPath, q ∈ (copyStep config now out acc file).1.dirs := by
  intro acc
  show q ∈ (writeFile (mkdirParents acc.1 (out ++ file.1).dropLast)
    (out ++ file.1) (replace_variables file.2 config now)).dirs
  rw [writeFile_dirs]
  exact mkdirParents_mem _ hq

/-- A one-file framework subtree, for the C1 counterexample and witness. -/
def c1Tpl : TemplatesDir :=
  ⟨[("python-fastapi".data, [(["foo.txt".data], "hi".data)])], none⟩

/-- C1 counterexample: on a subtree holding the single file `foo.txt`,
`copy_framework_template` returns the destination path
`out/foo.txt` (`output_dir / relative_path`), not the relative path
`foo.txt` the claim states. -/
theorem c1_counterexample :
    (copy_framework_template c1Tpl demoConfig demoClock ⟨[], []⟩ outDir).2 =
      [["out".data, "foo.txt".data]] ∧
    (copy_framework_template c1Tpl demoConfig demoClock ⟨[], []⟩ outDir).2 ≠
      [["foo.txt".data]] := by
  decide

/-- C1 (amended): for an existing framework subtree whose relative paths
are distinct, `copy_framework_template` processes every regular file —
the substituted content is readable at the mirrored path under the output
directory, whose parent directories all exist — and returns the list of
destination paths (`output_dir` joined with each relative path), in the
order written. -/
theorem c1_copy_framework_template_processes_all (tpl : TemplatesDir)
    (config : ProjectConfig) (now : Clock) (fs : FS) (out : FPath)
    (files : List (FPath × Str))
    (hsub : frameworkSubtree tpl config.framework_config.name = some files)
    (hnodup : (files.map (fun f => f.1)).Nodup) :
    (copy_framework_template tpl config now fs out).2 =
      files.map (fun f => out ++ f.1) ∧
    (∀ file ∈ files,
       readFile (copy_framework_template tpl config now fs out).1 (out ++ file.1) =
         some (replace_variables file.2 config now)) ∧
    (∀ file ∈ files, ∀ q ∈ (out ++ file.1).dropLast.inits,
       q ∈ (copy_framework_template tpl config now fs out).1.dirs) := by
  have hdest_nodup : (files.map (fun f => out ++ f.1)).Nodup := by
    have he : files.map (fun f => out ++ f.1) =
        (files.map (fun f => f.1)).map (fun p => out ++ p) := by
      simp [List.map_map]
    rw [he]
    exact hnodup.map (fun a b hab => List.append_cancel_left hab)
  unfold copy_framework_template
  rw [hsub]
  dsimp only
  refine ⟨?_, ?_, ?_⟩
  · rw [foldl_copyStep_snd]
    rfl
  · intro file hf
    obtain ⟨l1, l2, rfl⟩ := List.append_of_mem hf
    have hnotin : out ++ file.1 ∉ l2.map (fun f => out ++ f.1) := by
      rw [List.map_append, List.map_cons] at hdest_nodup
      exact (List.nodup_cons.mp hdest_nodup.of_append_right).1
    rw [List.foldl_append, List.foldl_cons,
      foldl_copyStep_readFile_preserve _ _ _ _ _ _ hnotin]
    show readFile (writeFile
      (mkdirParents (List.foldl (copyStep config now out) (mkdirParents fs out, []) l1).1
        (out ++ file.1).dropLast)
      (out ++ file.1) (replace_variables file.2 config now)) (out ++ file.1) =
      some (replace_variables file.2 config now)
    rw [readFile_writeFile_self]
  · intro file hf q hq
    exact foldl_reach (copyStep config now out)
      (fun st : FS × List FPath => q ∈ st.1.dirs) (copyStep_dirs_mono config now out)
      files (mkdirParents fs out, []) file hf (copyStep_dirs_mem config now out file hq)

theorem c1_witness :
    (copy_framework_template c1Tpl demoConfig demoClock ⟨[], []⟩ outDir).2 =
      [(["foo.txt".data], "hi".data)].map (fun f => outDir ++ f.1) ∧
    readFile (copy_framework_template c1Tpl demoConfig demoClock ⟨[], []⟩ outDir).1
        (outDir ++ ["foo.txt".data]) =
      some (replace_variables "hi".data demoConfig demoClock) :=
  have h := c1_copy_framework_template_processes_all c1Tpl demoConfig demoClock
    ⟨[], []⟩ outDir [(["foo.txt".data], "hi".data)] (by decide) (by decide)
  ⟨h.1, h.2.1 (["foo.txt".data], "hi".data) (by decide)⟩

/-- With a registered framework key and a non-empty project name both
supplied, `get_project_config` skips the name prompt and consumes exactly
the four remaining prompts (author, description, gitlab url, coverage
threshold). -/
theorem get_project_config_given (key name i1 i2 i3 i4 : Str) (rest : List Str)
    (c : FrameworkConfig) (h : frameworksLookup key = some c)
    (hkeyne : key ≠ []) (hname : name ≠ []) :
    get_project_config (some key) (some name) (i1 :: i2 :: i3 :: i4 :: rest) =
      ConfigResult.ok
        ⟨c, name, get_user_input i1 (some "Your Team".data),
         get_user_input i2 (some ("A ".data ++ c.display_name ++ " project".data)),
         get_user_input i3 (some "".data), get_user_input i4 (some "80".data)⟩
        rest := by
  simp only [get_project_config, if_neg hkeyne, if_neg hname, h, Option.map_some']
  rfl

/-- C2 (amended): when the output directory exists, is non-empty, and the
(lower-cased) answer to the overwrite prompt is not `"y"`,
`generate_project` returns normally without writing anything, and the
process exits with code 0 — not 1. -/
theorem c2_decline_aborts_exit_zero (tpl : TemplatesDir) (fs : FS) (out : FPath)
    (key name i1 i2 i3 i4 r : Str) (rest : List Str) (base_only : Bool)
    (now : Clock) (c : FrameworkConfig)
    (hkey : frameworksLookup key = some c)
    (hname : name ≠ [])
    (hnotfile : fs.hasFile out = false)
    (hdir : fs.hasDir out = true)
    (hne : dirNotEmpty fs out = true)
    (hdecl : pyLower (get_user_input r (some "n".data)) ≠ "y".data) :
    generate_project tpl fs out (some key) (some name) (!base_only)
        (i1 :: i2 :: i3 :: i4 :: r :: rest) now = RunResult.normal fs ∧
    mainRun tpl fs out (some key) (some name) base_only
        (i1 :: i2 :: i3 :: i4 :: r :: rest) now = (0, fs) := by
  have hgen : generate_project tpl fs out (some key) (some name) (!base_only)
      (i1 :: i2 :: i3 :: i4 :: r :: rest) now = RunResult.normal fs := by
    have hkeyne : key ≠ [] := by
      intro he
      rw [he, show frameworksLookup ([] : Str) = none from rfl] at hkey
      cases hkey
    unfold generate_project
    rw [get_project_config_given key name i1 i2 i3 i4 (r :: rest) c hkey hkeyne hname]
    dsimp only
    rw [if_neg (show ¬ fs.hasFile out = true by simp [hnotfile]),
      if_pos (show (fs.hasDir out && dirNotEmpty fs out) = true by simp [hdir, hne])]
    rw [if_neg hdecl]
  exact ⟨hgen, by unfold mainRun; rw [hgen]⟩

/-- An empty template directory, for concrete C2 runs. -/
def emptyTpl : TemplatesDir := ⟨[], none⟩

/-- A filesystem in which `out` exists and contains one file, for C2. -/
def c2Fs : FS := ⟨[["out".data]], [(["out".data, "x.txt".data], "x".data)]⟩

/-- C2 counterexample: with a non-empty output directory and a declined
confirmation (empty answer, defaulting to `"n"`), the run writes nothing
and the process exit code is 0, not the claimed 1. -/
theorem c2_counterexample :
    mainRun emptyTpl c2Fs outDir (some "python-fastapi".data) (some "demo".data)
        false [[], [], [], [], []] demoClock = (0, c2Fs) ∧
    (mainRun emptyTpl c2Fs outDir (some "python-fastapi".data) (some "demo".data)
        false [[], [], [], [], []] demoClock).1 ≠ 1 := by
  decide

theorem c2_witness :
    generate_project emptyTpl c2Fs outDir (some "python-fastapi".data)
        (some "demo".data) (!false) [[], [], [], [], ["n".data].head!] demoClock =
      RunResult.normal c2Fs ∧
    mainRun emptyTpl c2Fs outDir (some "python-fastapi".data) (some "demo".data)
        false [[], [], [], [], ["n".data].head!] demoClock = (0, c2Fs) :=
  c2_decline_aborts_exit_zero emptyTpl c2Fs outDir "python-fastapi".data "demo".data
    [] [] [] [] "n".data [] false demoClock fcPythonFastapi
    (by decide) (by decide) (by decide) (by decide) (by decide) (by decide)

/-- C7: an absent framework subtree makes `copy_framework_template` return
the unchanged filesystem and an empty list (a warning, not a failure); the
orchestrator then behaves exactly as a base-template-only run;
`generate_from_base_template` writes the substituted base template to
`output_dir/COPILOT_INSTRUCTIONS.md` and returns that path when the base
template exists, and returns `none` leaving the filesystem unchanged when
it does not. -/
theorem c7_missing_template_fallback :
    (∀ (tpl : TemplatesDir) (config : ProjectConfig) (now : Clock) (fs : FS)
       (out : FPath),
       frameworkSubtree tpl config.framework_config.name = none →
       copy_framework_template tpl config now fs out = (fs, [])) ∧
    (∀ (tpl : TemplatesDir) (config : ProjectConfig) (now : Clock) (fs : FS)
       (out : FPath) (content : Str),
       tpl.base_template = some content →
       (generate_from_base_template tpl config now fs out).2 =
         some (out ++ ["COPILOT_INSTRUCTIONS.md".data]) ∧
       readFile (generate_from_base_template tpl config now fs out).1
           (out ++ ["COPILOT_INSTRUCTIONS.md".data]) =
         some (replace_variables content config now)) ∧
    (∀ (tpl : TemplatesDir) (config : ProjectConfig) (now : Clock) (fs : FS)
       (out : FPath),
       tpl.base_template = none →
       generate_from_base_template tpl config now fs out = (fs, none)) ∧
    (∀ (tpl : TemplatesDir) (fs : FS) (out : FPath)
       (framework project_name : Option Str) (inputs : List Str) (now : Clock),
       (∀ k, frameworkSubtree tpl k = none) →
       generate_project tpl fs out framework project_name true inputs now =
         generate_project tpl fs out framework project_name false inputs now) := by
  have hcopy : ∀ (tpl : TemplatesDir) (config : ProjectConfig) (now : Clock)
      (fs : FS) (out : FPath),
      frameworkSubtree tpl config.framework_config.name = none →
      copy_framework_template tpl config now fs out = (fs, []) := by
    intro tpl config now fs out h
    unfold copy_framework_template
    rw [h]
  refine ⟨hcopy, ?_, ?_, ?_⟩
  · intro tpl config now fs out content h
    unfold generate_from_base_template
    rw [h]
    dsimp only
    exact ⟨rfl, readFile_writeFile_self _ _ _⟩
  · intro tpl config now fs out h
    unfold generate_from_base_template
    rw [h]
  · intro tpl fs out framework project_name inputs now hall
    have hrg : ∀ config : ProjectConfig,
        runGeneration tpl config now fs out true =
          runGeneration tpl config now fs out false := by
      intro config
      unfold runGeneration
      rw [hcopy tpl config now fs out (hall config.framework_config.name)]
      simp
    unfold generate_project
    rcases get_project_config framework project_name inputs with ⟨config, inputs1⟩ | _
    · simp only [hrg]
    · rfl

/-- A template directory with no framework subtrees and an existing base
template, for the C7 witness. -/
def c7Tpl : TemplatesDir := ⟨[], some "Base for \x7b\x7bPROJECT_NAME\x7d\x7d".data⟩

theorem c7_witness :
    copy_framework_template c7Tpl demoConfig demoClock ⟨[], []⟩ outDir =
      (⟨[], []⟩, []) ∧
    (generate_from_base_template c7Tpl demoConfig demoClock ⟨[], []⟩ outDir).2 =
      some (outDir ++ ["COPILOT_INSTRUCTIONS.md".data]) ∧
    readFile (generate_from_base_template c7Tpl demoConfig demoClock ⟨[], []⟩ outDir).1
        (outDir ++ ["COPILOT_INSTRUCTIONS.md".data]) =
      some (replace_variables "Base for \x7b\x7bPROJECT_NAME\x7d\x7d".data demoConfig demoClock) ∧
    generate_from_base_template emptyTpl demoConfig demoClock ⟨[], []⟩ outDir =
      (⟨[], []⟩, none) ∧
    generate_project c7Tpl ⟨[], []⟩ outDir (some "python-fastapi".data)
        (some "demo".data) true [[], [], [], []] demoClock =
      generate_project c7Tpl ⟨[], []⟩ outDir (some "python-fastapi".data)
        (some "demo".data) false [[], [], [], []] demoClock :=
  ⟨c7_missing_template_fallback.1 c7Tpl demoConfig demoClock ⟨[], []⟩ outDir (by decide),
   (c7_missing_template_fallback.2.1 c7Tpl demoConfig demoClock ⟨[], []⟩ outDir
     "Base for \x7b\x7bPROJECT_NAME\x7d\x7d".data (by decide)).1,
   (c7_missing_template_fallback.2.1 c7Tpl demoConfig demoClock ⟨[], []⟩ outDir
     "Base for \x7b\x7bPROJECT_NAME\x7d\x7d".data (by decide)).2,
   c7_missing_template_fallback.2.2.1 emptyTpl demoConfig demoClock ⟨[], []⟩ outDir
     (by decide),
   c7_missing_template_fallback.2.2.2 c7Tpl ⟨[], []⟩ outDir
     (some "python-fastapi".data) (some "demo".data) [[], [], [], []] demoClock
     (fun k => rfl)⟩

/-- Two strings can overlap at a shared starting position only when one is
a prefix of the other. -/
def compat (a b : Str) : Bool := a.isPrefixOf b || b.isPrefixOf a

/-- No occurrence of `pat` starts at any position inside `p` (including
occurrences that would extend past the right end of `p`). -/
def cleanFor (pat p : Str) : Prop := ∀ i < p.length, compat (p.drop i) pat = false

instance (pat p : Str) : Decidable (cleanFor pat p) := by
  unfold cleanFor
  infer_instance

/-- Concatenation of a list of strings. -/
def catL : List Str → Str
  | [] => []
  | s :: rest => s ++ catL rest

/-- The pairwise separation property of the fixed token set: no token
occurrence can start strictly inside a token, nor can two distinct tokens
overlap at a shared starting position. -/
def tokensSeparated : Prop :=
  ∀ ti ∈ tokens, ∀ tj ∈ tokens, ∀ k, k < tj.length → (k = 0 → ti ≠ tj) →
    compat (tj.drop k) ti = false

theorem tokens_separated : tokensSeparated := by
  unfold tokensSeparated
  decide

theorem tokens_nodup : tokens.Nodup := by decide

theorem tokens_ne_nil : ∀ t ∈ tokens, t ≠ [] := by decide

theorem tokens_head : ∀ t ∈ tokens, t.head? = some lbrace := by decide

theorem tokenValues_length (config : ProjectConfig) (now : Clock) :
    (tokenValues config now).length = tokens.length := rfl

/-- The substituted value of the `i`-th token. -/
def valueAt (config : ProjectConfig) (now : Clock) (i : Fin tokens.length) : Str :=
  (tokenValues config now).get ⟨i.1, by rw [tokenValues_length]; exact i.2⟩

/-- The replacement table is the fixed token list indexed against the
corresponding values. -/
theorem replacements_eq (config : ProjectConfig) (now : Clock) :
    replacements config now =
      (List.finRange tokens.length).map
        (fun i => (tokens.get i, valueAt config now i)) := rfl

theorem compat_comm (a b : Str) : compat a b = compat b a := Bool.or_comm _ _

theorem compat_false_left {x y : Str} (h : compat x y = false) : ¬ x <+: y := by
  intro hp
  unfold compat at h
  rw [List.isPrefixOf_iff_prefix.mpr hp] at h
  simp at h

theorem compat_false_right {x y : Str} (h : compat x y = false) : ¬ y <+: x := by
  intro hp
  unfold compat at h
  rw [List.isPrefixOf_iff_prefix.mpr hp] at h
  simp at h

/-- A prefix of a concatenation either contains or is contained in the
left part. -/
theorem prefix_append_cases {pat a b : Str} (h : pat <+: a ++ b) :
    a <+: pat ∨ pat <+: a := by
  rcases h with ⟨t, ht⟩
  rcases List.append_eq_append_iff.mp ht with ⟨a', ha, _⟩ | ⟨c', hc, _⟩
  · exact Or.inr ⟨a', ha.symm⟩
  · exact Or.inl ⟨c', hc.symm⟩

theorem isPrefixOf_append_false {x y b : Str} (h : compat x y = false) :
    x.isPrefixOf (y ++ b) = false := by
  cases hv : x.isPrefixOf (y ++ b) with
  | false => rfl
  | true =>
    rcases prefix_append_cases (List.isPrefixOf_iff_prefix.mp hv) with h1 | h1
    · exact absurd h1 (compat_false_right h)
    · exact absurd h1 (compat_false_left h)

theorem cleanFor_tail {pat : Str} {c : Char} {p : Str}
    (h : cleanFor pat (c :: p)) : cleanFor pat p := by
  intro i hi
  have h1 := h (i + 1) (by simpa using Nat.succ_lt_succ hi)
  simpa using h1

theorem cleanFor_not_prefix {pat : Str} {c : Char} {p b : Str}
    (h : cleanFor pat (c :: p)) : pat.isPrefixOf ((c :: p) ++ b) = false := by
  have h0 : compat (c :: p) pat = false := by simpa using h 0 (by simp)
  rw [compat_comm] at h0
  exact isPrefixOf_append_false h0

theorem cleanFor_ne_pat {pat : Str} {c : Char} {p : Str}
    (h : cleanFor pat (c :: p)) : c :: p ≠ pat := by
  intro he
  have h0 : compat ((c :: p).drop 0) pat = false := h 0 (by simp)
  rw [List.drop_zero, he] at h0
  unfold compat at h0
  rw [List.isPrefixOf_iff_prefix.mpr (List.prefix_refl pat)] at h0
  simp at h0

theorem catL_all_nil {ps : List Str} (h : catL ps = []) : ∀ p ∈ ps, p = [] := by
  induction ps with
  | nil => simp
  | cons p rest ih =>
    intro q hq
    rw [show catL (p :: rest) = p ++ catL rest from rfl] at h
    rcases List.append_eq_nil.mp h with ⟨h1, h2⟩
    rcases List.mem_cons.mp hq with rfl | hq'
    · exact h1
    · exact ih h2 q hq'

theorem catL_eq_nil {ps : List Str} (h : ∀ p ∈ ps, p = []) : catL ps = [] := by
  induction ps with
  | nil => rfl
  | cons p rest ih =>
    rw [show catL (p :: rest) = p ++ catL rest from rfl, h p (by simp),
      ih (fun q hq => h q (by simp [hq]))]
    rfl

/-- The key structural fact about left-to-right replace-all: on a
concatenation of pieces, each of which is either exactly `pat` or clean
for `pat`, `str.replace` replaces exactly the `pat` pieces. -/
theorem replaceF_pieces (pat rep : Str) (hne : pat ≠ []) :
    ∀ (fuel : Nat) (ps : List Str),
      (∀ p ∈ ps, p = pat ∨ cleanFor pat p) →
      (catL ps).length ≤ fuel →
      replaceF pat rep fuel (catL ps) =
        catL (ps.map (fun p => if p = pat then rep else p)) := by
  intro fuel
  induction fuel with
  | zero =>
    intro ps _ hlen
    have hnil : catL ps = [] := List.eq_nil_of_length_eq_zero (Nat.le_zero.mp hlen)
    rw [hnil, replaceF_nil]
    refine (catL_eq_nil ?_).symm
    intro q hq
    rcases List.mem_map.mp hq with ⟨p, hp, rfl⟩
    have hpnil : p = [] := catL_all_nil hnil p hp
    subst hpnil
    rw [if_neg (fun he => hne he.symm)]
  | succ fuel ihf =>
    intro ps
    induction ps with
    | nil =>
      intro _ _
      rfl
    | cons p rest ihp =>
      intro hps hlen
      have hrest : ∀ q ∈ rest, q = pat ∨ cleanFor pat q :=
        fun q hq => hps q (by simp [hq])
      rcases hps p (by simp) with hp | hp
      · subst hp
        obtain ⟨c, pt, hpat⟩ := List.exists_cons_of_ne_nil hne
        have hlen' : (catL rest).length ≤ fuel := by
          have he : (catL (p :: rest)).length = p.length + (catL rest).length := by
            simp [catL]
          rw [he] at hlen
          have hp1 : 1 ≤ p.length := by rw [hpat]; simp
          omega
        have hstep : replaceF p rep (fuel + 1) (catL (p :: rest)) =
            rep ++ replaceF p rep fuel (catL rest) := by
          rw [show catL (p :: rest) = p ++ catL rest from rfl, hpat]
          show replaceF (c :: pt) rep (fuel + 1) (c :: (pt ++ catL rest)) = _
          have hpre : (c :: pt).isPrefixOf (c :: (pt ++ catL rest)) = true :=
            List.isPrefixOf_iff_prefix.mpr ⟨catL rest, by simp⟩
          simp only [replaceF, hpre, if_true]
          rw [show (c :: pt).length - 1 = pt.length from by simp, List.drop_left]
        rw [hstep, ihf rest hrest hlen']
        have hrhs : catL ((p :: rest).map fun q => if q = p then rep else q) =
            rep ++ catL (rest.map fun q => if q = p then rep else q) := by
          simp [catL]
        rw [hrhs]
      · cases p with
        | nil =>
          show replaceF pat rep (fuel + 1) (catL rest) =
            catL (([] :: rest).map fun q => if q = pat then rep else q)
          rw [ihp hrest hlen]
          have h0 : (if ([] : Str) = pat then rep else ([] : Str)) = [] :=
            if_neg (fun he => hne he.symm)
          rw [show catL (([] :: rest).map fun q => if q = pat then rep else q) =
              (if ([] : Str) = pat then rep else ([] : Str)) ++
                catL (rest.map fun q => if q = pat then rep else q) from rfl,
            h0, List.nil_append]
        | cons c pt =>
          have hclean := hp
          have hnp : pat.isPrefixOf ((c :: pt) ++ catL rest) = false :=
            cleanFor_not_prefix hp
          show replaceF pat rep (fuel + 1) (c :: (pt ++ catL rest)) =
            catL (((c :: pt) :: rest).map fun q => if q = pat then rep else q)
          have hcond : ¬ (pat.isPrefixOf (c :: (pt ++ catL rest)) = true) := by
            have he : pat.isPrefixOf (c :: (pt ++ catL rest)) = false := hnp
            simp [he]
          simp only [replaceF]
          rw [if_neg hcond]
          have hlen2 : (catL (pt :: rest)).length ≤ fuel := by
            have h1 : (catL ((c :: pt) :: rest)).length ≤ fuel + 1 := hlen
            simp [catL, List.length_append] at h1 ⊢
            omega
          have hpieces : ∀ q ∈ pt :: rest, q = pat ∨ cleanFor pat q := by
            intro q hq
            rcases List.mem_cons.mp hq with rfl | hq'
            · exact Or.inr (cleanFor_tail hclean)
            · exact hrest q hq'
          rw [show pt ++ catL rest = catL (pt :: rest) from rfl,
            ihf (pt :: rest) hpieces hlen2]
          have hptsubst : (if pt = pat then rep else pt) = pt := by
            cases pt with
            | nil => rw [if_neg (fun he : ([] : Str) = pat => hne he.symm)]
            | cons d dt => rw [if_neg (cleanFor_ne_pat (cleanFor_tail hclean))]
          have hpne : (c :: pt) ≠ pat := cleanFor_ne_pat hclean
          simp [catL, hptsubst, if_neg hpne]

/-- A segment of a template text: plain text, or one of the fixed tokens. -/
inductive Seg where
  | plain (s : Str)
  | tok (i : Fin tokens.length)
  deriving DecidableEq

/-- The string a segment denotes after the tokens whose indices are in
`done` have been substituted by their values. -/
def segSubst (config : ProjectConfig) (now : Clock)
    (done : List (Fin tokens.length)) : Seg → Str
  | Seg.plain s => s
  | Seg.tok i => if i ∈ done then valueAt config now i else tokens.get i

/-- Plain segments must not contain the opening brace character. -/
def segPlainOk : Seg → Bool
  | Seg.plain s => !(s.contains lbrace)
  | Seg.tok _ => true

theorem segPlainOk_plain {s : Str} (h : segPlainOk (Seg.plain s) = true) :
    lbrace ∉ s := by
  unfold segPlainOk at h
  intro hm
  rw [Bool.not_eq_true'] at h
  have h2 : List.elem lbrace s = true := List.elem_eq_true_of_mem hm
  rw [show s.contains lbrace = List.elem lbrace s from rfl, h2] at h
  simp at h

/-- A string without an opening brace is clean for any string starting
with an opening brace. -/
theorem cleanFor_of_braceFree {s : Str} (h : lbrace ∉ s) {t : Str}
    (ht : t.head? = some lbrace) : cleanFor t s := by
  intro i hi
  have hdrop : s.drop i ≠ [] := by
    intro hnil
    rw [List.drop_eq_nil_iff] at hnil
    omega
  obtain ⟨d, dtail, hd⟩ := List.exists_cons_of_ne_nil hdrop
  obtain ⟨tt, htt⟩ : ∃ tt, t = lbrace :: tt := by
    cases t with
    | nil => simp at ht
    | cons a b =>
      simp at ht
      exact ⟨b, by rw [ht]⟩
  have hdmem : d ∈ s := List.mem_of_mem_drop (by rw [hd]; simp)
  have hdne : d ≠ lbrace := fun he => h (he ▸ hdmem)
  have h1 : ((d : Char) == lbrace) = false := beq_eq_false_iff_ne.mpr hdne
  have h2 : ((lbrace : Char) == d) = false := beq_eq_false_iff_ne.mpr (Ne.symm hdne)
  rw [hd, htt]
  show ((d :: dtail).isPrefixOf (lbrace :: tt) || (lbrace :: tt).isPrefixOf (d :: dtail)) = false
  show (((d : Char) == lbrace) && dtail.isPrefixOf tt ||
    ((lbrace : Char) == d) && tt.isPrefixOf dtail) = false
  rw [h1, h2]
  rfl

theorem token_get_mem (i : Fin tokens.length) : tokens.get i ∈ tokens :=
  List.get_mem tokens i.1 i.2

theorem token_get_ne_nil (i : Fin tokens.length) : tokens.get i ≠ [] :=
  tokens_ne_nil _ (token_get_mem i)

theorem token_get_head (i : Fin tokens.length) :
    (tokens.get i).head? = some lbrace :=
  tokens_head _ (token_get_mem i)

theorem valueAt_mem (config : ProjectConfig) (now : Clock) (i : Fin tokens.length) :
    valueAt config now i ∈ tokenValues config now :=
  List.get_mem _ _ _

theorem token_get_ne {i j : Fin tokens.length} (h : i ≠ j) :
    tokens.get i ≠ tokens.get j :=
  fun he => h ((List.Nodup.get_inj_iff tokens_nodup).mp he)

/-- A token distinct from `t_j` is clean for `t_j`. -/
theorem cleanFor_token_token {k j : Fin tokens.length} (h : k ≠ j) :
    cleanFor (tokens.get j) (tokens.get k) := by
  intro i hi
  exact tokens_separated (tokens.get j) (token_get_mem j) (tokens.get k)
    (token_get_mem k) i hi (fun _ => (token_get_ne (Ne.symm h)))

/-- A token cannot equal a string that avoids the opening brace. -/
theorem token_ne_braceFree {s : Str} (h : lbrace ∉ s) (i : Fin tokens.length) :
    s ≠ tokens.get i := by
  intro he
  have hh := token_get_head i
  rw [← he] at hh
  cases s with
  | nil => simp at hh
  | cons a b =>
    simp at hh
    exact h (by rw [hh]; simp)

/-- One `str.replace` pass over a segment text substitutes exactly the
occurrences of the processed token. -/
theorem pyReplace_segs_step (config : ProjectConfig) (now : Clock)
    (hvals : ∀ v ∈ tokenValues config now, lbrace ∉ v)
    (j : Fin tokens.length) (done : List (Fin tokens.length)) (segs : List Seg)
    (hplain : ∀ s ∈ segs, segPlainOk s = true) :
    pyReplace (catL (segs.map (segSubst config now done)))
        (tokens.get j) (valueAt config now j) =
      catL (segs.map (segSubst config now (j :: done))) := by
  unfold pyReplace
  rw [replaceF_pieces (tokens.get j) (valueAt config now j) (token_get_ne_nil j) _ _
    ?hpieces le_rfl]
  case hpieces =>
    intro p hp
    rcases List.mem_map.mp hp with ⟨s, hs, rfl⟩
    cases s with
    | plain str =>
      exact Or.inr (cleanFor_of_braceFree (segPlainOk_plain (hplain _ hs))
        (token_get_head j))
    | tok k =>
      show (if k ∈ done then valueAt config now k else tokens.get k) = _ ∨
        cleanFor _ (if k ∈ done then valueAt config now k else tokens.get k)
      by_cases hk : k ∈ done
      · rw [if_pos hk]
        exact Or.inr (cleanFor_of_braceFree (hvals _ (valueAt_mem config now k))
          (token_get_head j))
      · rw [if_neg hk]
        by_cases hkj : k = j
        · subst hkj
          exact Or.inl rfl
        · exact Or.inr (cleanFor_token_token hkj)
  rw [List.map_map]
  apply congrArg catL
  apply List.map_congr_left
  intro s hsmem
  cases s with
  | plain str =>
    show (if str = tokens.get j then valueAt config now j else str) = str
    rw [if_neg (token_ne_braceFree (segPlainOk_plain (hplain _ hsmem)) j)]
  | tok k =>
    show (if (if k ∈ done then valueAt config now k else tokens.get k) = tokens.get j
        then valueAt config now j
        else (if k ∈ done then valueAt config now k else tokens.get k)) =
      (if k ∈ j :: done then valueAt config now k else tokens.get k)
    by_cases hk : k ∈ done
    · rw [if_pos hk, if_pos (List.mem_cons_of_mem j hk),
        if_neg (token_ne_braceFree (hvals _ (valueAt_mem config now k)) j)]
    · rw [if_neg hk]
      by_cases hkj : k = j
      · subst hkj
        rw [if_pos rfl, if_pos (List.mem_cons_self k done)]
      · rw [if_neg (token_get_ne hkj), if_neg (by simp [hkj, hk])]

theorem segSubst_congr (config : ProjectConfig) (now : Clock)
    {d1 d2 : List (Fin tokens.length)} (h : ∀ i, i ∈ d1 ↔ i ∈ d2) (s : Seg) :
    segSubst config now d1 s = segSubst config now d2 s := by
  cases s with
  | plain s => rfl
  | tok i =>
    show (if i ∈ d1 then valueAt config now i else tokens.get i) =
      (if i ∈ d2 then valueAt config now i else tokens.get i)
    by_cases hi : i ∈ d1
    · rw [if_pos hi, if_pos ((h i).mp hi)]
    · rw [if_neg hi, if_neg (fun hc => hi ((h i).mpr hc))]

/-- Chained sequential replacement over a segment text, processing any
list of token indices, substitutes exactly those tokens. -/
theorem applyRepls_segs (config : ProjectConfig) (now : Clock)
    (hvals : ∀ v ∈ tokenValues config now, lbrace ∉ v) :
    ∀ (order done : List (Fin tokens.length)) (segs : List Seg),
      (∀ s ∈ segs, segPlainOk s = true) →
      applyRepls (catL (segs.map (segSubst config now done)))
          (order.map (fun i => (tokens.get i, valueAt config now i))) =
        catL (segs.map (segSubst config now (order.reverse ++ done))) := by
  intro order
  induction order with
  | nil =>
    intro done segs _
    rfl
  | cons j rest ih =>
    intro done segs hplain
    show applyRepls
      (pyReplace (catL (segs.map (segSubst config now done)))
        (tokens.get j) (valueAt config now j))
      (rest.map (fun i => (tokens.get i, valueAt config now i))) = _
    rw [pyReplace_segs_step config now hvals j done segs hplain,
      ih (j :: done) segs hplain]
    rw [List.reverse_cons, List.append_assoc]
    rfl

/-- At a non-brace character, no token can match, so the one-pass scan
finds nothing. -/
theorem find?_replacements_none (config : ProjectConfig) (now : Clock)
    (c : Char) (b : Str) (hc : c ≠ lbrace) :
    (replacements config now).find? (fun pv => pv.1.isPrefixOf (c :: b)) = none := by
  rw [List.find?_eq_none]
  intro pv hmem hpre
  have ht : pv.1 ∈ tokens := mem_replacements_fst config now hmem
  have hh := tokens_head pv.1 ht
  cases hp : pv.1 with
  | nil => rw [hp] at hh; simp at hh
  | cons a rest' =>
    rw [hp] at hh
    simp at hh
    rw [hp] at hpre
    have : ((a : Char) == c) = true := by
      have h2 : (((a : Char) == c) && rest'.isPrefixOf b) = true := hpre
      simp only [Bool.and_eq_true] at h2
      exact h2.1
    exact hc (by rw [← beq_iff_eq.mp this, hh])

/-- `find?` returns the designated entry when every other entry's pattern
fails to match. -/
theorem find?_hit (pat v b : Str) :
    ∀ (pairs : List (Str × Str)), (pat, v) ∈ pairs →
      (∀ pw ∈ pairs, pw.1 ≠ pat → pw.1.isPrefixOf (pat ++ b) = false) →
      (∀ pw ∈ pairs, pw.1 = pat → pw = (pat, v)) →
      pairs.find? (fun pw => pw.1.isPrefixOf (pat ++ b)) = some (pat, v) := by
  intro pairs
  induction pairs with
  | nil =>
    intro h
    simp at h
  | cons q qs ih =>
    intro hmem hothers huniq
    by_cases hq : q.1 = pat
    · have hq' : q = (pat, v) := huniq q (by simp) hq
      subst hq'
      have hpre : pat.isPrefixOf (pat ++ b) = true :=
        List.isPrefixOf_iff_prefix.mpr ⟨b, rfl⟩
      rw [List.find?_cons_of_pos _ (by simp [hpre])]
    · have hf : q.1.isPrefixOf (pat ++ b) = false := hothers q (by simp) hq
      rw [List.find?_cons_of_neg _ (by simp [hf])]
      refine ih ?_ (fun pw hw => hothers pw (by simp [hw]))
        (fun pw hw => huniq pw (by simp [hw]))
      rcases List.mem_cons.mp hmem with he | hm
      · exact absurd (show q.1 = pat by rw [← he]) hq
      · exact hm

/-- At the start of the `k`-th token, the one-pass scan finds precisely
that token's replacement pair. -/
theorem find?_replacements_tok (config : ProjectConfig) (now : Clock)
    (k : Fin tokens.length) (b : Str) :
    (replacements config now).find?
        (fun pv => pv.1.isPrefixOf (tokens.get k ++ b)) =
      some (tokens.get k, valueAt config now k) := by
  apply find?_hit
  · rw [replacements_eq]
    exact List.mem_map_of_mem _ (List.mem_finRange k)
  · intro pw hw hne'
    have ht : pw.1 ∈ tokens := mem_replacements_fst config now hw
    have hcf : compat pw.1 (tokens.get k) = false := by
      have hlen : 0 < (tokens.get k).length :=
        List.length_pos.mpr (token_get_ne_nil k)
      have hs := tokens_separated pw.1 ht (tokens.get k) (token_get_mem k) 0 hlen
        (fun _ => hne')
      rw [List.drop_zero] at hs
      rw [compat_comm]
      exact hs
    exact isPrefixOf_append_false hcf
  · intro pw hw he
    rw [replacements_eq] at hw
    rcases List.mem_map.mp hw with ⟨i, _, rfl⟩
    have hik : i = k := (List.Nodup.get_inj_iff tokens_nodup).mp he
    rw [hik]

/-- All token indices. -/
def allIdx : List (Fin tokens.length) := List.finRange tokens.length

/-- The spec's independent one-pass substitution over a segment text
substitutes every token. -/
theorem independentSubstF_segs (config : ProjectConfig) (now : Clock) :
    ∀ (fuel : Nat) (segs : List Seg),
      (∀ s ∈ segs, segPlainOk s = true) →
      (catL (segs.map (segSubst config now []))).length ≤ fuel →
      independentSubstF (replacements config now) fuel
          (catL (segs.map (segSubst config now []))) =
        catL (segs.map (segSubst config now allIdx)) := by
  intro fuel
  induction fuel with
  | zero =>
    intro segs _ hlen
    have hnil : catL (segs.map (segSubst config now [])) = [] :=
      List.eq_nil_of_length_eq_zero (Nat.le_zero.mp hlen)
    rw [hnil, show independentSubstF (replacements config now) 0 [] = [] from rfl]
    symm
    apply catL_eq_nil
    intro q hq
    rcases List.mem_map.mp hq with ⟨s, hs, rfl⟩
    have hpc := catL_all_nil hnil _ (List.mem_map_of_mem _ hs)
    cases s with
    | plain str => exact hpc
    | tok i => exact absurd (by simpa [segSubst] using hpc) (token_get_ne_nil i)
  | succ fuel ihf =>
    intro segs
    induction segs with
    | nil =>
      intro _ _
      rfl
    | cons s rest ihs =>
      intro hok hlen
      have hrest : ∀ q ∈ rest, segPlainOk q = true :=
        fun q hq => hok q (by simp [hq])
      cases s with
      | plain str =>
        cases str with
        | nil =>
          show independentSubstF (replacements config now) (fuel + 1)
            (catL (rest.map (segSubst config now []))) = _
          rw [ihs hrest hlen]
          rfl
        | cons c ct =>
          have hbf : lbrace ∉ (c :: ct) := segPlainOk_plain (hok _ (by simp))
          have hc : c ≠ lbrace := fun he => hbf (by simp [he])
          have hctbf : lbrace ∉ ct := fun hm => hbf (by simp [hm])
          show independentSubstF (replacements config now) (fuel + 1)
            (c :: (ct ++ catL (rest.map (segSubst config now [])))) = _
          simp only [independentSubstF]
          rw [find?_replacements_none config now c _ hc]
          show c :: independentSubstF (replacements config now) fuel
              (ct ++ catL (rest.map (segSubst config now []))) = _
          have hlen2 :
              (catL ((Seg.plain ct :: rest).map (segSubst config now []))).length ≤ fuel := by
            have h1 : (catL ((Seg.plain (c :: ct) :: rest).map
                (segSubst config now []))).length ≤ fuel + 1 := hlen
            simp [catL, segSubst, List.length_append] at h1 ⊢
            omega
          have hok2 : ∀ q ∈ Seg.plain ct :: rest, segPlainOk q = true := by
            intro q hq
            rcases List.mem_cons.mp hq with rfl | hq'
            · unfold segPlainOk
              rw [Bool.not_eq_true']
              cases hcontains : ct.contains lbrace
              · rfl
              · exact absurd (List.mem_of_elem_eq_true hcontains) hctbf
            · exact hrest q hq'
          rw [show ct ++ catL (rest.map (segSubst config now [])) =
              catL ((Seg.plain ct :: rest).map (segSubst config now [])) from rfl,
            ihf (Seg.plain ct :: rest) hok2 hlen2]
          rfl
      | tok i =>
        obtain ⟨c, tt, hti⟩ := List.exists_cons_of_ne_nil (token_get_ne_nil i)
        show independentSubstF (replacements config now) (fuel + 1)
            (tokens.get i ++ catL (rest.map (segSubst config now []))) =
          segSubst config now allIdx (Seg.tok i) ++
            catL (rest.map (segSubst config now allIdx))
        have hlenR : (catL (rest.map (segSubst config now []))).length ≤ fuel := by
          have h1 : (catL ((Seg.tok i :: rest).map
              (segSubst config now []))).length ≤ fuel + 1 := hlen
          have h2 : (catL ((Seg.tok i :: rest).map (segSubst config now []))).length =
              (tokens.get i).length + (catL (rest.map (segSubst config now []))).length := by
            simp [catL, segSubst, List.length_append]
          rw [h2, hti] at h1
          simp at h1
          omega
        have hfind := find?_replacements_tok config now i
          (catL (rest.map (segSubst config now [])))
        rw [hti, List.cons_append] at hfind
        rw [hti, List.cons_append]
        simp only [independentSubstF]
        rw [hfind]
        show valueAt config now i ++ independentSubstF (replacements config now) fuel
            ((tt ++ catL (rest.map (segSubst config now []))).drop ((c :: tt).length - 1)) = _
        rw [show (c :: tt).length - 1 = tt.length from by simp, List.drop_left,
          ihf rest hrest hlenR]
        have hseg : segSubst config now allIdx (Seg.tok i) = valueAt config now i := by
          show (if i ∈ allIdx then valueAt config now i else tokens.get i) = _
          rw [if_pos (show i ∈ allIdx from List.mem_finRange i)]
        rw [hseg]

/-- `replace_variables` on a segment text substitutes every token slot by
its value and leaves the plain segments verbatim. -/
theorem replace_variables_segs (config : ProjectConfig) (now : Clock)
    (hvals : ∀ v ∈ tokenValues config now, lbrace ∉ v)
    (segs : List Seg) (hplain : ∀ s ∈ segs, segPlainOk s = true) :
    replace_variables (catL (segs.map (segSubst config now []))) config now =
      catL (segs.map (segSubst config now allIdx)) := by
  have h2 : replace_variables (catL (segs.map (segSubst config now []))) config now =
      applyRepls (catL (segs.map (segSubst config now [])))
        (allIdx.map (fun i => (tokens.get i, valueAt config now i))) := by
    unfold replace_variables
    rw [replacements_eq]
    rfl
  rw [h2, applyRepls_segs config now hvals allIdx [] segs hplain]
  apply congrArg catL
  apply List.map_congr_left
  intro s _
  apply segSubst_congr
  intro i
  constructor
  · intro _
    exact List.mem_finRange i
  · intro _
    simp [show i ∈ allIdx from List.mem_finRange i, allIdx]

theorem catL_not_mem {x : Char} {ps : List Str} (h : ∀ p ∈ ps, x ∉ p) :
    x ∉ catL ps := by
  induction ps with
  | nil => simp [catL]
  | cons p rest ih =>
    show x ∉ p ++ catL rest
    intro hm
    rcases List.mem_append.mp hm with hm | hm
    · exact h p (by simp) hm
    · exact ih (fun q hq => h q (by simp [hq])) hm

/-- The config used in the C3 counterexample: its project name is itself
the `AUTHOR` token literal. -/
def c3Cfg : ProjectConfig :=
  ⟨fcPythonFastapi, "\x7b\x7bAUTHOR\x7d\x7d".data, "X".data, "d".data, [], "80".data⟩

/-- C3 counterexample: with the project name set to the literal
`AUTHOR` token, chained replacement substitutes the value inserted for
`PROJECT_NAME` again on the later `AUTHOR` pass (yielding `"X"`), while
independent replacement against the original text yields the inserted
token literal — so the inserted value *is* subject to a later
replacement and the result differs from independent replacement. -/
theorem c3_counterexample :
    replace_variables "\x7b\x7bPROJECT_NAME\x7d\x7d".data c3Cfg demoClock = "X".data ∧
    independentSubstitute "\x7b\x7bPROJECT_NAME\x7d\x7d".data c3Cfg demoClock =
      "\x7b\x7bAUTHOR\x7d\x7d".data ∧
    replace_variables "\x7b\x7bPROJECT_NAME\x7d\x7d".data c3Cfg demoClock ≠
      independentSubstitute "\x7b\x7bPROJECT_NAME\x7d\x7d".data c3Cfg demoClock := by
  decide

/-- C3 (amended): on template texts whose brace characters occur only as
complete recognized tokens (modelled as segment lists with brace-free
plain segments) and for configs and clocks whose substituted values
contain no opening brace, chained sequential replacement applied in *any*
order covering the whole token set equals the spec's independent
single-pass substitution over the original text; in particular
`replace_variables` (registry order) does.  Without those restrictions a
value inserted by one replacement can itself be substituted by a later
replacement (see the counterexample). -/
theorem c3_substitute_single_pass (config : ProjectConfig) (now : Clock)
    (hvals : ∀ v ∈ tokenValues config now, lbrace ∉ v)
    (segs : List Seg) (hplain : ∀ s ∈ segs, segPlainOk s = true)
    (order : List (Fin tokens.length)) (hcover : ∀ i, i ∈ order) :
    applyRepls (catL (segs.map (segSubst config now [])))
        (order.map (fun i => (tokens.get i, valueAt config now i))) =
      independentSubstitute (catL (segs.map (segSubst config now []))) config now ∧
    replace_variables (catL (segs.map (segSubst config now []))) config now =
      independentSubstitute (catL (segs.map (segSubst config now []))) config now := by
  have hpar : independentSubstitute (catL (segs.map (segSubst config now [])))
      config now = catL (segs.map (segSubst config now allIdx)) :=
    independentSubstF_segs config now _ segs hplain le_rfl
  have hseq : applyRepls (catL (segs.map (segSubst config now [])))
      (order.map (fun i => (tokens.get i, valueAt config now i))) =
      catL (segs.map (segSubst config now allIdx)) := by
    rw [applyRepls_segs config now hvals order [] segs hplain]
    apply congrArg catL
    apply List.map_congr_left
    intro s _
    apply segSubst_congr
    intro i
    constructor
    · intro _
      exact List.mem_finRange i
    · intro _
      simp [hcover i]
  exact ⟨hseq.trans hpar.symm,
    (replace_variables_segs config now hvals segs hplain).trans hpar.symm⟩

/-- Concrete segments for the C3 witness. -/
def c3WitnessSegs : List Seg :=
  [Seg.plain "a ".data, Seg.tok ⟨7, by decide⟩, Seg.plain " b".data]

theorem c3_witness :
    applyRepls (catL (c3WitnessSegs.map (segSubst demoConfig demoClock [])))
        (allIdx.reverse.map (fun i => (tokens.get i, valueAt demoConfig demoClock i))) =
      independentSubstitute (catL (c3WitnessSegs.map (segSubst demoConfig demoClock [])))
        demoConfig demoClock ∧
    replace_variables (catL (c3WitnessSegs.map (segSubst demoConfig demoClock [])))
        demoConfig demoClock =
      independentSubstitute (catL (c3WitnessSegs.map (segSubst demoConfig demoClock [])))
        demoConfig demoClock :=
  c3_substitute_single_pass demoConfig demoClock (by decide) c3WitnessSegs (by decide)
    allIdx.reverse (by decide)

/-- The token indices occurring in a segment list. -/
def tokIndices : List Seg → List (Fin tokens.length) :=
  List.filterMap (fun s => match s with | Seg.plain _ => none | Seg.tok i => some i)

/-- The config used in the C4 counterexample: its project name is the
literal `PROJECT_NAME` token. -/
def c4Cfg : ProjectConfig :=
  ⟨fcPythonFastapi, "\x7b\x7bPROJECT_NAME\x7d\x7d".data, "Your Team".data, "d".data,
   [], "80".data⟩

/-- The concatenation of all fourteen tokens: a template containing every
recognized token exactly once. -/
def c4Content : Str := catL tokens

set_option maxRecDepth 40000 in
/-- C4 counterexample: on a template containing every recognized token
exactly once, with the project name set to the literal `PROJECT_NAME`
token, the output still contains that `\x7b\x7b...\x7d\x7d` token syntax —
so "zero occurrences of any token syntax" fails for such configs. -/
theorem c4_counterexample :
    c4Content = catL tokens ∧
    "\x7b\x7bPROJECT_NAME\x7d\x7d".data <:+:
      replace_variables c4Content c4Cfg demoClock := by
  exact ⟨rfl, by decide⟩

/-- C4 (amended): for a template text containing every recognized token
exactly once (segment form, brace-free plain segments) and a config and
clock whose substituted values contain no opening brace, `substitute`
leaves the plain segments in place, puts the exact substituted values at
the tokens' original positions, and the output contains no opening brace
at all — in particular zero occurrences of any token syntax. -/
theorem c4_every_token_once_fully_substituted (config : ProjectConfig) (now : Clock)
    (hvals : ∀ v ∈ tokenValues config now, lbrace ∉ v)
    (segs : List Seg) (hplain : ∀ s ∈ segs, segPlainOk s = true)
    (honce : ∀ i : Fin tokens.length, (tokIndices segs).count i = 1) :
    replace_variables (catL (segs.map (segSubst config now []))) config now =
      catL (segs.map (segSubst config now allIdx)) ∧
    lbrace ∉ replace_variables (catL (segs.map (segSubst config now []))) config now := by
  have h1 := replace_variables_segs config now hvals segs hplain
  refine ⟨h1, ?_⟩
  rw [h1]
  apply catL_not_mem
  intro p hp
  rcases List.mem_map.mp hp with ⟨s, hs, rfl⟩
  cases s with
  | plain str => exact segPlainOk_plain (hplain _ hs)
  | tok i =>
    show lbrace ∉ (if i ∈ allIdx then valueAt config now i else tokens.get i)
    rw [if_pos (show i ∈ allIdx from List.mem_finRange i)]
    exact hvals _ (valueAt_mem config now i)

/-- Concrete segments for the C4 witness: every token exactly once. -/
def c4WitnessSegs : List Seg := Seg.plain "pre ".data :: allIdx.map Seg.tok

theorem c4_witness :
    replace_variables (catL (c4WitnessSegs.map (segSubst demoConfig demoClock [])))
        demoConfig demoClock =
      catL (c4WitnessSegs.map (segSubst demoConfig demoClock allIdx)) ∧
    lbrace ∉ replace_variables (catL (c4WitnessSegs.map (segSubst demoConfig demoClock [])))
        demoConfig demoClock :=
  c4_every_token_once_fully_substituted demoConfig demoClock (by decide)
    c4WitnessSegs (by decide) (by decide)
